import Mathlib

/-!
Verification of the precedent-retrieval and recommendation engine of the
Condition-agent repository.  The definitions below are a shallow embedding of
the Python sources `chemtools/precedent.py`, `chemtools/recommend.py` and
`chemtools/reaction_similarity.py`: pure functions become Lean functions,
dictionaries become association lists over a small value type, floats are
modelled as exact rationals, and external collaborators (the dataset loader,
the process hash function for strings, `math.exp`, and the optional DRFP
fingerprint encoder) become explicit function parameters.
-/

namespace CondAgent

/-- Model of a Python value as stored in feature dictionaries and record
fields.  Absent keys and `None` collapse to `PyVal.none` (every call site in
the embedded code reads values through `dict.get`, which conflates the two);
booleans, strings and numbers (ints and floats, modelled as exact rationals)
are kept apart because the code branches on `isinstance`. -/
inductive PyVal where
  | none : PyVal
  | bool (b : Bool) : PyVal
  | str (s : String) : PyVal
  | num (q : ℚ) : PyVal
  deriving DecidableEq, Repr

/-- Python truthiness of a modelled value. -/
def PyVal.truthy : PyVal → Bool
  | .none => false
  | .bool b => b
  | .str s => !s.isEmpty
  | .num q => q != 0

/-- Python `isinstance(v, bool)`. -/
def PyVal.isBool : PyVal → Bool
  | .bool _ => true
  | _ => false

/-- Python `str(v)`.  Numbers are printed with the Lean rational printer
rather than the CPython float printer; no claim settled in this file compares
the string form of a number with anything but the string form of the same
number, for which both printers agree on equality. -/
def PyVal.pyStr : PyVal → String
  | .none => "None"
  | .bool b => if b then "True" else "False"
  | .str s => s
  | .num q => toString q

/-- Python `isinstance(v, (int, float))` (booleans are ints in Python). -/
def PyVal.isNum : PyVal → Bool
  | .num _ => true
  | .bool _ => true
  | _ => false

/-- Numeric content of a value for which `PyVal.isNum` holds (`True` is 1). -/
def PyVal.asNum : PyVal → ℚ
  | .num q => q
  | .bool b => if b then 1 else 0
  | _ => 0

/-- Python `float(v)` as used inside `try` blocks: numbers and booleans
convert; `None` raises, and string parsing is not modelled (the embedded
claims never convert string-typed temperatures or times), so both are mapped
to the exception path `Option.none`. -/
def PyVal.pyFloat : PyVal → Option ℚ
  | .num q => some q
  | .bool b => some (if b then 1 else 0)
  | _ => Option.none

/-- The Python idiom `v or ""`: a truthy value passes through, anything
falsy is replaced by the empty string. -/
def pyOrEmpty (v : PyVal) : PyVal :=
  if v.truthy then v else .str ""

/-- The Python idiom `str(v or "")`, which never raises (`str` converts any
value).  The distinct idiom `(v or "").strip()` instead raises
`AttributeError` on a truthy non-string `v`; it is modelled by `pyStrOr`
below wherever that exception is reachable, and by this total function only
where the operand is a string by construction. -/
def pyStrOrEmpty (v : PyVal) : String :=
  if v.truthy then v.pyStr else ""

/-- The Python idiom `(v or "")` at a call site that immediately calls a
string method on the result (`.strip()`, `.lower()`): a falsy value becomes
`""`, a truthy string passes through, and a truthy non-string raises
`AttributeError`, modelled as `Option.none`. -/
def pyStrOr (v : PyVal) : Option String :=
  if v.truthy then
    match v with
    | PyVal.str s => some s
    | _ => Option.none
  else some ""

/-- A Python dict with string keys, as an association list.  Python dicts
hold each key at most once; lookups below return the first binding, which
coincides with dict semantics on the duplicate-free lists the embedding
builds. -/
abbrev FeatDict := List (String × PyVal)

/-- Raw dict lookup distinguishing an absent key (`Option.none`) from a
stored value, used where the source tests `key in d`. -/
def dlookup (d : FeatDict) (k : String) : Option PyVal :=
  (d.find? (fun p => p.1 == k)).map Prod.snd

/-- Python `d.get(k)`: absent keys give `None`. -/
def dget (d : FeatDict) (k : String) : PyVal :=
  (dlookup d k).getD PyVal.none

/-- Python `k in d`. -/
def dmem (d : FeatDict) (k : String) : Bool :=
  (dlookup d k).isSome

/-- Python `d.setdefault(k, v)` (insertion at the end, only when absent). -/
def setdefault (d : FeatDict) (k : String) (v : PyVal) : FeatDict :=
  if dmem d k then d else d ++ [(k, v)]

/-- Split one `key:value` part of a bin string, `str.split(":", 1)` style,
with both sides stripped; parts without a colon are skipped by the caller. -/
def splitKV (part : String) : Option (String × String) :=
  if part.contains ':' then
    let k := part.takeWhile (fun c => c != ':')
    some (k.trim, (part.drop (k.length + 1)).trim)
  else Option.none

/-- Assignment into a string-valued dict (later assignments overwrite). -/
def upsertStr (d : List (String × String)) (k v : String) : List (String × String) :=
  if d.any (fun p => p.1 == k) then
    d.map (fun p => if p.1 == k then (p.1, v) else p)
  else d ++ [(k, v)]

/-- Lookup in a string-valued dict. -/
def lookupStr (d : List (String × String)) (k : String) : Option String :=
  (d.find? (fun p => p.1 == k)).map Prod.snd

/-- `_parse_bin` from `chemtools/precedent.py`: decompose a feature-bin
string such as `LG:Br|NUC:aniline` into a key-value map. -/
def parseBin (s : String) : List (String × String) :=
  if s = "" then []
  else
    (s.splitOn "|").foldl
      (fun acc part =>
        match splitKV part with
        | some kv => upsertStr acc kv.1 kv.2
        | Option.none => acc)
      []

/-- The fixed categorical attribute weights of `_similarity`
(`LG` 0.35, `nuc_class` 0.35, `ortho_count` 0.10, `para_EWG` 0.10,
`heteroaryl` 0.10). -/
def simWeights : List (String × ℚ) :=
  [("LG", 35/100), ("nuc_class", 35/100), ("ortho_count", 10/100),
   ("para_EWG", 10/100), ("heteroaryl", 10/100)]

/-- One iteration of the weighted categorical matching loop of
`_similarity`: booleans compare by truthiness, other present values by
case-insensitive string equality; a missing side earns no credit. -/
def catCredit (a b : FeatDict) (kw : String × ℚ) : ℚ :=
  let av := dget a kw.1
  let bv := dget b kw.1
  if av.isBool || bv.isBool then
    if av.truthy = bv.truthy then kw.2 else 0
  else if av ≠ PyVal.none ∧ bv ≠ PyVal.none ∧ av.pyStr.toLower = bv.pyStr.toLower then
    kw.2
  else 0

/-- The numeric proximity keys of `_similarity`: `(key, scale, weight)`
pairs `("T_C", 50, 0.10)` and `("time_h", 8, 0.05)`. -/
def numKeys : List (String × ℚ × ℚ) :=
  [("T_C", (50, 10/100)), ("time_h", (8, 5/100))]

/-- One numeric proximity bonus of `_similarity`, returning the pair of
contributions to the score and to the weight total.  `mexp` stands for
`math.exp`; a failed `float()` conversion of either side contributes
nothing (the exception path). -/
def numCredit (mexp : ℚ → ℚ) (a b : FeatDict) (ksw : String × ℚ × ℚ) : ℚ × ℚ :=
  if dmem a ksw.1 && dmem b ksw.1 then
    match (dget a ksw.1).pyFloat, (dget b ksw.1).pyFloat with
    | some da, some db =>
        (ksw.2.2 * mexp (-|da - db| / max (1/1000000000) ksw.2.1), ksw.2.2)
    | _, _ => (0, 0)
  else (0, 0)

/-- `_similarity` from `chemtools/precedent.py`, parameterised by the
exponential function `mexp` (the library call `math.exp`). -/
def similarity (mexp : ℚ → ℚ) (a b : FeatDict) : ℚ :=
  if pyOrEmpty (dget a "bin") = pyOrEmpty (dget b "bin") ∧ (dget a "bin").truthy then 1
  else
    let catScore := (simWeights.map (catCredit a b)).sum
    let numParts := numKeys.map (numCredit mexp a b)
    let score := catScore + (numParts.map Prod.fst).sum
    let total := (simWeights.map Prod.snd).sum + (numParts.map Prod.snd).sum
    if total ≤ 0 then 0 else max 0 (min 1 (score / total))

/-- One historical reaction row in the uniform in-memory schema produced by
the dataset loader (`_load` / `_make_row_from_dataset`).  Only the fields the
retrieval and recommendation logic reads are modelled; the remaining fields
(`reagents`, `solvents`, `reference`, `conditions`, `catalyst`,
`full_system`) are copied verbatim into precedents and never consulted by
the embedded code paths. -/
structure Row where
  reaction_id : PyVal := PyVal.none
  rxn_type : PyVal := PyVal.none
  yield_value : PyVal := PyVal.none
  T_C : PyVal := PyVal.none
  time_h : PyVal := PyVal.none
  condition_core : PyVal := PyVal.none
  base_uid : PyVal := PyVal.none
  solvent_uid : PyVal := PyVal.none
  features : FeatDict := []
  reaction_smiles : PyVal := PyVal.none
  deriving DecidableEq, Repr

/-- The `relax` configuration dict, with one optional field per key the
source reads (`Option.none` models an absent key; the source substitutes the
documented default).  The `precompute_drfp` and `precompute_scope` keys only
warm the fingerprint cache and have no observable effect, so they are not
modelled. -/
structure Relax where
  strict_bin : Option Bool := Option.none
  min_candidates : Option ℤ := Option.none
  fallback_order : Option (List String) := Option.none
  use_drfp : Option Bool := Option.none
  reaction_smiles : Option String := Option.none
  drfp_weight : Option ℚ := Option.none
  drfp_n_bits : Option ℤ := Option.none
  drfp_radius : Option ℤ := Option.none
  deriving DecidableEq, Repr

/-- One entry of the `precedents` list assembled at the end of `_knn_impl`.
The pass-through metadata fields and the reactant/product split of the
reaction SMILES (pure presentation) are not modelled. -/
structure Precedent where
  reaction_id : PyVal
  reaction_smiles : PyVal
  condition_core : PyVal
  yieldv : PyVal
  core : PyVal
  base_uid : PyVal
  solvent_uid : PyVal
  T_C : PyVal
  time_h : PyVal
  deriving DecidableEq, Repr

/-- The pack returned by `knn` / `_knn_impl`:
`{prototype_id, support, precedents[], error?}`. -/
structure PrecedentPack where
  prototype_id : String
  support : ℕ
  precedents : List Precedent
  error : Option String := Option.none
  deriving DecidableEq, Repr

/-- `_family_text`: map API family tokens to the dataset label. -/
def familyText (family : String) : String :=
  let f := family.trim
  if f.toLower = "ullmann_cn" ∨ f.toLower = "ullmann c–n" ∨
     f.toLower = "ullmann c-n" ∨ f.toLower = "ullmann" then "Ullmann C–N"
  else f

/-- `_proto_family_id`: normalise the family text for prototype ids
(spaces to underscores, dash variants to `-`, slash to underscore). -/
def protoFamilyId (familyTxt : String) : String :=
  ((((familyTxt.replace " " "_").replace "–" "-").replace "—" "-").replace "−" "-").replace "/" "_"

/-- `tanimoto` from `chemtools/reaction_similarity.py` on two bit vectors:
intersection over union of set bits, 0 when the union is empty.  A NumPy
shape mismatch raises inside the guarded block and yields 0.0, modelled by
the length test. -/
def tanimoto (a b : List Bool) : ℚ :=
  if a.length ≠ b.length then 0
  else
    let inter : ℤ := ((a.zip b).filter (fun p => p.1 && p.2)).length
    let denom : ℤ := (a.filter id).length + (b.filter id).length - inter
    if denom ≤ 0 then 0 else (inter : ℚ) / (denom : ℚ)

/-- The subset of still-unused family rows matched by one fallback key in
`_candidate_pool` (`nuc_class`, `LG`, `any`, or nothing). -/
def fbSubset (targetNuc : String) (targetLg : PyVal) (remaining : List Row) (fb : String) :
    List Row :=
  if fb = "nuc_class" ∧ targetNuc ≠ "" then
    remaining.filter (fun r => (pyStrOrEmpty (dget r.features "nuc_class")).toLower == targetNuc)
  else if fb = "LG" ∧ targetLg.truthy then
    remaining.filter (fun r => pyOrEmpty (dget r.features "LG") == targetLg)
  else if fb = "any" then remaining
  else []

/-- The fallback loop of `_candidate_pool`: extend the candidate list one
fallback key at a time, dropping used rows from `remaining`, and stop as
soon as `min_candidates` is reached. -/
def poolLoop (targetNuc : String) (targetLg : PyVal) (minCandidates : ℤ) :
    List Row → List Row → List String → List Row
  | cands, _, [] => cands
  | cands, remaining, fb :: rest =>
      let subset := fbSubset targetNuc targetLg remaining fb
      let cands2 := cands ++ subset
      if minCandidates ≤ (cands2.length : ℤ) then cands2
      else poolLoop targetNuc targetLg minCandidates cands2
        (remaining.filter (fun r => !subset.contains r)) rest

/-- `_candidate_pool` from `chemtools/precedent.py`, on inputs where its two
raising reads return (the exception-aware translation is `candidatePoolE`
below; `candidatePoolE_eq_some` proves the two agree whenever the target
features' `bin` and `nuc_class` values are strings or falsy).  Note that the
source reads `strict_bin` from the relax map (line 197) but never consults
it afterwards: the fallback broadening below runs whenever the exact-bin
matches fall short of `min_candidates`, regardless of `strict_bin`. -/
def candidatePool (rows : List Row) (familyTxt : String) (feat : FeatDict) (k : ℕ)
    (relax : Relax) : List Row :=
  let famRows := rows.filter (fun r => pyOrEmpty r.rxn_type == PyVal.str familyTxt)
  if famRows.isEmpty then []
  else
    let minCandidates : ℤ := relax.min_candidates.getD (k : ℤ)
    let fallbackOrder := relax.fallback_order.getD ["nuc_class", "LG", "any"]
    let targetBin := (pyStrOrEmpty (dget feat "bin")).trim
    let targetBinMap := parseBin targetBin
    let targetNuc :=
      (if (dget feat "nuc_class").truthy then (dget feat "nuc_class").pyStr
       else match lookupStr targetBinMap "NUC" with
            | some s => s
            | Option.none => "").toLower
    let targetLg : PyVal :=
      if (dget feat "LG").truthy then dget feat "LG"
      else match lookupStr targetBinMap "LG" with
           | some s => PyVal.str s
           | Option.none => PyVal.str ""
    let cands := famRows.filter (fun r => pyOrEmpty (dget r.features "bin") == PyVal.str targetBin)
    if minCandidates ≤ (cands.length : ℤ) then cands
    else
      poolLoop targetNuc targetLg minCandidates cands
        (famRows.filter (fun r => !cands.contains r)) fallbackOrder

/-- `_candidate_pool` with its exception paths explicit.  The source reads
the target bin as `(feat.get("bin") or "").strip()` (precedent.py:201) and
the target nucleophile class as
`(feat.get("nuc_class") or target_bin_map.get("NUC") or "").lower()`
(line 203): a truthy non-string value in either read raises
`AttributeError`, modelled as `Option.none`.  The record-side reads of the
fallback loop apply the same idiom to dataset rows, whose feature values are
strings produced by the CSV loader, so they stay total; on a family with no
rows the source returns before either raising read. -/
def candidatePoolE (rows : List Row) (familyTxt : String) (feat : FeatDict) (k : ℕ)
    (relax : Relax) : Option (List Row) :=
  let famRows := rows.filter (fun r => pyOrEmpty r.rxn_type == PyVal.str familyTxt)
  if famRows.isEmpty then some []
  else
    let minCandidates : ℤ := relax.min_candidates.getD (k : ℤ)
    let fallbackOrder := relax.fallback_order.getD ["nuc_class", "LG", "any"]
    match pyStrOr (dget feat "bin") with
    | Option.none => Option.none
    | some tb =>
      let targetBin := tb.trim
      let targetBinMap := parseBin targetBin
      match (if (dget feat "nuc_class").truthy then pyStrOr (dget feat "nuc_class")
             else some (match lookupStr targetBinMap "NUC" with
                        | some s => s
                        | Option.none => "")) with
      | Option.none => Option.none
      | some nuc =>
        let targetNuc := nuc.toLower
        let targetLg : PyVal :=
          if (dget feat "LG").truthy then dget feat "LG"
          else match lookupStr targetBinMap "LG" with
               | some s => PyVal.str s
               | Option.none => PyVal.str ""
        let cands := famRows.filter
          (fun r => pyOrEmpty (dget r.features "bin") == PyVal.str targetBin)
        if minCandidates ≤ (cands.length : ℤ) then some cands
        else
          some (poolLoop targetNuc targetLg minCandidates cands
            (famRows.filter (fun r => !cands.contains r)) fallbackOrder)

/-- The target feature enrichment at the top of the scoring phase of
`_knn_impl`: when `LG` or `nuc_class` is falsy, fill the missing keys from
the parsed bin string via `setdefault`. -/
def targetFeatOf (features : FeatDict) : FeatDict :=
  if ¬ (dget features "LG").truthy ∨ ¬ (dget features "nuc_class").truthy then
    let bm := parseBin (pyStrOrEmpty (dget features "bin"))
    setdefault
      (setdefault features "LG"
        (match lookupStr bm "LG" with
         | some s => PyVal.str s
         | Option.none => PyVal.none))
      "nuc_class"
      (match lookupStr bm "NUC" with
       | some s => PyVal.str s
       | Option.none => PyVal.none)
  else features

/-- Normalised yield used by `_knn_impl` for the yield-quality factor:
`float(y)/100` when `isinstance(y, (int, float))`, else 0. -/
def yNorm (v : PyVal) : ℚ :=
  if v.isNum then v.asNum / 100 else 0

/-- The secondary sort key `-(record.get("yield_value") or 0)` of the
ranking in `_knn_impl`, without the final negation (the comparison below
reverses instead).  A truthy non-numeric yield would raise in the source; no
modelled claim ranks such rows, and they are keyed as 0 here. -/
def yKeyV (v : PyVal) : ℚ :=
  if v.truthy then v.asNum else 0

/-- The combined similarity of one candidate row in `_knn_impl`: the
categorical similarity, convex-blended with the DRFP Tanimoto similarity and
clamped to `[0,1]` when a query fingerprint and a row fingerprint are both
available.  `encode` stands for `reaction_similarity.encode_drfp_cached`. -/
def simTotalFor (mexp : ℚ → ℚ) (encode : String → ℤ → ℤ → Option (List Bool))
    (bits radius : ℤ) (w : ℚ) (qfp : Option (List Bool)) (target : FeatDict) (r : Row) : ℚ :=
  let simCat := similarity mexp target r.features
  match qfp with
  | Option.none => simCat
  | some q =>
    if r.reaction_smiles.truthy then
      match encode r.reaction_smiles.pyStr bits radius with
      | some rfp => max 0 (min 1 ((1 - w) * simCat + w * tanimoto q rfp))
      | Option.none => simCat
    else simCat

/-- The scoring loop of `_knn_impl` over the candidate pool: drop rows whose
combined similarity is not positive, and weight the remainder by the yield
factor `0.5 + 0.5 * y_norm`. -/
def scoredOf (mexp : ℚ → ℚ) (encode : String → ℤ → ℤ → Option (List Bool))
    (bits radius : ℤ) (w : ℚ) (qfp : Option (List Bool)) (target : FeatDict)
    (cands : List Row) : List (ℚ × Row) :=
  cands.filterMap (fun r =>
    let st := simTotalFor mexp encode bits radius w qfp target r
    if st ≤ 0 then Option.none
    else some (st * (1/2 + 1/2 * yNorm r.yield_value), r))

/-- The ranking order of `_knn_impl`: Python's stable ascending sort on the
key `(-neighbor_score, -(yield or 0))`, expressed as the corresponding total
preorder.  The stable insertion sort below produces the same list as the
source's stable Timsort for this total preorder. -/
def scoreLe (x y : ℚ × Row) : Prop :=
  y.1 < x.1 ∨ (x.1 = y.1 ∧ yKeyV y.2.yield_value ≤ yKeyV x.2.yield_value)

instance : DecidableRel scoreLe := fun x y => by
  unfold scoreLe; infer_instance

/-- The query fingerprint of `_knn_impl`: computed only when DRFP use is
requested, a query reaction string is present, and the backend is
available. -/
def qfpOf (drfpAvail : Bool) (encode : String → ℤ → ℤ → Option (List Bool))
    (relax : Relax) : Option (List Bool) :=
  if relax.use_drfp.getD false ∧ relax.reaction_smiles.getD "" ≠ "" ∧ drfpAvail then
    encode (relax.reaction_smiles.getD "") (relax.drfp_n_bits.getD 4096) (relax.drfp_radius.getD 3)
  else Option.none

/-- The combined similarity score `_knn_impl` assigns to one candidate row
under a relax configuration. -/
def knnSimTotal (mexp : ℚ → ℚ) (encode : String → ℤ → ℤ → Option (List Bool))
    (drfpAvail : Bool) (relax : Relax) (target : FeatDict) (r : Row) : ℚ :=
  simTotalFor mexp encode (relax.drfp_n_bits.getD 4096) (relax.drfp_radius.getD 3)
    (relax.drfp_weight.getD (40/100)) (qfpOf drfpAvail encode relax) target r

/-- The scored candidate list `_knn_impl` builds under a relax
configuration. -/
def knnScoredOf (mexp : ℚ → ℚ) (encode : String → ℤ → ℤ → Option (List Bool))
    (drfpAvail : Bool) (relax : Relax) (target : FeatDict) (cands : List Row) :
    List (ℚ × Row) :=
  scoredOf mexp encode (relax.drfp_n_bits.getD 4096) (relax.drfp_radius.getD 3)
    (relax.drfp_weight.getD (40/100)) (qfpOf drfpAvail encode relax) target cands

/-- The no-precedent pack of `_knn_impl`
(`{prototype_id: proto_<family>_none_0, support: 0, precedents: [],
error: NO_PRECEDENTS}`). -/
def noPrecPack (familyTxt : String) : PrecedentPack :=
  { prototype_id := "proto_" ++ protoFamilyId familyTxt ++ "_none_0",
    support := 0,
    precedents := [],
    error := some "NO_PRECEDENTS" }

/-- The bin key hashed into `prototype_id` by `_knn_impl`: the feature bin
when truthy, else an `LG:...|NUC:...` string rebuilt from the enriched
target features (with `?` for absent keys). -/
def binKeyOf (features targetFeat : FeatDict) : String :=
  if (dget features "bin").truthy then (dget features "bin").pyStr
  else
    "LG:" ++ (match dlookup targetFeat "LG" with
              | some v => v.pyStr
              | Option.none => "?") ++
    "|NUC:" ++ (match dlookup targetFeat "nuc_class" with
                | some v => v.pyStr
                | Option.none => "?")

/-- Build one precedent entry from a ranked row (`_knn_impl`, final loop). -/
def mkPrecedent (r : Row) : Precedent :=
  { reaction_id := r.reaction_id,
    reaction_smiles := pyOrEmpty r.reaction_smiles,
    condition_core := r.condition_core,
    yieldv := r.yield_value,
    core := r.condition_core,
    base_uid := r.base_uid,
    solvent_uid := r.solvent_uid,
    T_C := r.T_C,
    time_h := r.time_h }

/-- `_knn_impl` from `chemtools/precedent.py`, parameterised by the process
collaborators: `pyHash` is CPython's salted string `hash`, `mexp` is
`math.exp`, `drfpAvail`/`encode` model the optional DRFP backend (the
fingerprint-cache warming block has no observable effect and is omitted),
and `rows` is the dataset held by the memoised loader. -/
def knnImpl (pyHash : String → ℤ) (mexp : ℚ → ℚ) (drfpAvail : Bool)
    (encode : String → ℤ → ℤ → Option (List Bool)) (rows : List Row)
    (family : String) (features : FeatDict) (k : ℕ) (relax : Relax) : PrecedentPack :=
  let familyTxt := familyText family
  let cands := candidatePool rows familyTxt features k relax
  if cands.isEmpty then noPrecPack familyTxt
  else
    let targetFeat := targetFeatOf features
    let scored := knnScoredOf mexp encode drfpAvail relax targetFeat cands
    if scored.isEmpty then noPrecPack familyTxt
    else
      let sorted := List.insertionSort scoreLe scored
      let top := (sorted.take (max 1 k)).map Prod.snd
      let proto := "proto_" ++ protoFamilyId familyTxt ++ "_" ++
        toString ((pyHash (binKeyOf features targetFeat)).natAbs % 100000)
      { prototype_id := proto,
        support := scored.length,
        precedents := (top.take 10).map mkPrecedent,
        error := Option.none }

/-- `_as_kv` applied and undone by the `knn` / `_knn_cached` pair: the
feature dict reaches `_knn_impl` with its (unique) keys in sorted order.
Duplicate keys cannot occur in a Python dict; the first binding wins here to
match the lookup convention of `FeatDict`. -/
def asKV (d : FeatDict) : FeatDict :=
  List.insertionSort (fun p q : String × PyVal => p.1 ≤ q.1)
    (d.foldl (fun acc p => if acc.any (fun q => q.1 == p.1) then acc else acc ++ [p]) [])

/-- `knn` from `chemtools/precedent.py`: the public entry point, which
canonicalises the feature dict for the cache key and delegates to
`_knn_impl` (the `lru_cache` layer and the defensive copy of the result are
semantically transparent for the pure embedding). -/
def knn (pyHash : String → ℤ) (mexp : ℚ → ℚ) (drfpAvail : Bool)
    (encode : String → ℤ → ℤ → Option (List Bool)) (rows : List Row)
    (family : String) (features : FeatDict) (k : ℕ) (relax : Relax) : PrecedentPack :=
  knnImpl pyHash mexp drfpAvail encode rows family (asKV features) k relax

/-- `_knn_impl` with the exception path of `_candidate_pool` made explicit.
Every operation of `_knn_impl` after the pool is built is total: the
`_parse_bin` fallbacks and the prototype bin key go through `str(...)`,
which never raises, and scoring, ranking and row projection contain no
further `(x or "").method()` read.  A call that survives `_candidate_pool`
therefore returns exactly the value of `knnImpl`; a call that raises there
propagates the exception, modelled as `Option.none`. -/
def knnImplE (pyHash : String → ℤ) (mexp : ℚ → ℚ) (drfpAvail : Bool)
    (encode : String → ℤ → ℤ → Option (List Bool)) (rows : List Row)
    (family : String) (features : FeatDict) (k : ℕ) (relax : Relax) :
    Option PrecedentPack :=
  match candidatePoolE rows (familyText family) features k relax with
  | Option.none => Option.none
  | some _ => some (knnImpl pyHash mexp drfpAvail encode rows family features k relax)

/-- `knn` with the exception path explicit.  The `_as_kv` canonicalisation
and the cache layer never raise (`_as_kv` applies `str` to the keys and
sorts key-value pairs whose first components are pairwise distinct), so
`knn` raises exactly when `_knn_impl` does. -/
def knnE (pyHash : String → ℤ) (mexp : ℚ → ℚ) (drfpAvail : Bool)
    (encode : String → ℤ → ℤ → Option (List Bool)) (rows : List Row)
    (family : String) (features : FeatDict) (k : ℕ) (relax : Relax) :
    Option PrecedentPack :=
  knnImplE pyHash mexp drfpAvail encode rows family (asKV features) k relax

/-- A `collections.Counter` built by one left-to-right pass, keeping the
first-insertion order of the keys (as Python dicts do). -/
def tally (xs : List String) : List (String × ℕ) :=
  xs.foldl (fun acc x =>
    if acc.any (fun p => p.1 == x) then
      acc.map (fun p => if p.1 == x then (p.1, p.2 + 1) else p)
    else acc ++ [(x, 1)]) []

/-- Count of one key in a tally (`counter.get(k, 0)`). -/
def countIn (t : List (String × ℕ)) (L : String) : ℕ :=
  ((t.find? (fun p => p.1 == L)).map Prod.snd).getD 0

/-- `Counter.most_common()`: stable sort by count descending (CPython sorts
the items with `reverse=True`, which keeps ties in insertion order; the
stable insertion sort below agrees on this total preorder). -/
def mostCommon (t : List (String × ℕ)) : List (String × ℕ) :=
  List.insertionSort (fun p q : String × ℕ => q.2 ≤ p.2) t

/-- Python `max(xs, key=f)`: the first element attaining the maximum. -/
def argmaxFirst (f : String → ℚ) : List String → Option String
  | [] => Option.none
  | x :: xs => some (xs.foldl (fun b y => if f b < f y then y else b) x)

/-- `list(dict.fromkeys(xs))`: deduplicate keeping first occurrences. -/
def dedupKeepFirst (xs : List String) : List String :=
  xs.foldl (fun acc x => if acc.contains x then acc else acc ++ [x]) []

/-- `_median` from `chemtools/recommend.py` (the numeric filter has already
been applied by the caller and is reapplied there on rationals only). -/
def median (xs : List ℚ) : Option ℚ :=
  if xs.isEmpty then Option.none
  else
    let s := List.insertionSort (fun a b : ℚ => a ≤ b) xs
    let n := xs.length
    if n % 2 = 1 then some (s.getD (n / 2) 0)
    else some ((1/2) * (s.getD (n / 2 - 1) 0 + s.getD (n / 2) 0))

/-- Round-half-to-even on rationals, the rounding mode of Python's
`round`. -/
def rhe (x : ℚ) : ℤ :=
  let f := ⌊x⌋
  let r := x - (f : ℚ)
  if r < 1/2 then f
  else if 1/2 < r then f + 1
  else if Even f then f else f + 1

/-- Python `round(x, 3)` on the exact rational model. -/
def pyRound3 (x : ℚ) : ℚ :=
  ((rhe (1000 * x) : ℤ) : ℚ) / 1000

/-- Python falsiness of an optional string (`not pick` catches both `None`
and the empty string). -/
def optFalsy (o : Option String) : Bool :=
  match o with
  | some s => s.isEmpty
  | Option.none => true

/-- `_pick_with_constraints` from `chemtools/recommend.py`.  The constraint
filter is an external collaborator, passed in as `applyF` (returning the
allowed and blocked candidate ids); `hasRules` is the truthiness of the
rules map. -/
def pickWithConstraints (applyF : List String → List String × List String) (hasRules : Bool)
    (cands : List String) : Option String × (List String × List String) :=
  if cands.isEmpty then (Option.none, ([], []))
  else if ¬ hasRules then (cands.head?, (cands, []))
  else
    let out := applyF cands
    (out.1.head?, out)

/-- The label `str(p.get("core") or "")` of one precedent. -/
def coreStr (p : Precedent) : String :=
  pyStrOrEmpty p.core

/-- `int(pack.get("support") or len(precs))` in `recommend_from_reaction`. -/
def supportOf (pack : PrecedentPack) : ℕ :=
  if pack.support = 0 then pack.precedents.length else pack.support

/-- The numeric values of one field over a list of precedents
(`[p.get(key) for p in items if isinstance(p.get(key), (int, float))]`). -/
def numsKey (f : Precedent → PyVal) (items : List Precedent) : List ℚ :=
  (items.filter (fun p => (f p).isNum)).map (fun p => (f p).asNum)

/-- The Python idiom `xs or ys` on lists. -/
def listOr (xs ys : List ℚ) : List ℚ :=
  if xs.isEmpty then ys else xs

/-- The consensus recommendation assembled by `recommend_from_reaction`
(steps 5 to 8 of the source; the upstream SMILES normalisation, family
routing, featurisation and the `knn` call feed it the pack). -/
structure Recommendation where
  core : Option String
  base_uid : Option String
  solvent_uid : Option String
  T_C : Option ℚ
  time_h : Option ℚ
  confidence : ℚ
  deriving DecidableEq, Repr

/-- The core-label counter of the aggregation phase
(`Counter([str(p.get("core") or "") for p in precs if p.get("core")])`). -/
def coreTallyOf (precs : List Precedent) : List (String × ℕ) :=
  tally ((precs.filter (fun p => p.core.truthy)).map coreStr)

/-- The Laplace-smoothed score of a core label in `recommend_from_reaction`
(`(count(L) + alpha) / (total_votes + alpha * max(1, num_labels))` with
`alpha = 1`). -/
def coreScore (precs : List Precedent) (L : String) : ℚ :=
  ((countIn (coreTallyOf precs) L : ℚ) + 1) /
    ((((coreTallyOf precs).map Prod.snd).sum : ℚ) +
      1 * ((max 1 ((coreTallyOf precs).map Prod.fst).length : ℕ) : ℚ))

/-- `chosen_core`: the first label of maximal smoothed score, `None` when no
precedent carries a truthy core label. -/
def chosenCoreOf (precs : List Precedent) : Option String :=
  argmaxFirst (coreScore precs) ((coreTallyOf precs).map Prod.fst)

/-- `core_vote_share`: the chosen label's share of all core votes. -/
def voteShareOf (precs : List Precedent) : ℚ :=
  match chosenCoreOf precs with
  | some L => (countIn (coreTallyOf precs) L : ℚ) /
      ((max 1 ((coreTallyOf precs).map Prod.snd).sum : ℕ) : ℚ)
  | Option.none => 0

/-- The aggregation phase of `recommend_from_reaction`
(`chemtools/recommend.py`, steps 5 to 8): Laplace-smoothed core vote,
frequency-ranked base/solvent choice through the external constraint filter
with a fallback to the unfiltered precedent list, median temperature and
time, and the clamped, rounded confidence.  The chosen core is `None`
exactly when no precedent carries a truthy core label, and every counted
label is a nonempty string, so the source's truthiness tests on
`chosen_core` coincide with the `Option` matches below. -/
def recommendAggregate (applyF : List String → List String × List String) (hasRules : Bool)
    (pack : PrecedentPack) : Recommendation :=
  let precs := pack.precedents
  let support := supportOf pack
  let chosen := chosenCoreOf precs
  let voteShare := voteShareOf precs
  let group :=
    match chosen with
    | some L => precs.filter (fun p => coreStr p == L)
    | Option.none => precs
  let allBases := (precs.filter (fun p => p.base_uid.truthy)).map (fun p => pyStrOrEmpty p.base_uid)
  let allSolvs := (precs.filter (fun p => p.solvent_uid.truthy)).map (fun p => pyStrOrEmpty p.solvent_uid)
  let bases := (group.filter (fun p => p.base_uid.truthy)).map (fun p => pyStrOrEmpty p.base_uid)
  let solvents := (group.filter (fun p => p.solvent_uid.truthy)).map (fun p => pyStrOrEmpty p.solvent_uid)
  let baseList0 := (mostCommon (tally bases)).map Prod.fst
  let baseList := if baseList0.isEmpty then allBases else baseList0
  let solvList0 := (mostCommon (tally solvents)).map Prod.fst
  let solvList := if solvList0.isEmpty then allSolvs else solvList0
  let bp1 := pickWithConstraints applyF hasRules baseList
  let bp2 := if optFalsy bp1.1 ∧ ¬ precs.isEmpty then
               pickWithConstraints applyF hasRules (dedupKeepFirst allBases)
             else bp1
  let sp1 := pickWithConstraints applyF hasRules solvList
  let sp2 := if optFalsy sp1.1 ∧ ¬ precs.isEmpty then
               pickWithConstraints applyF hasRules (dedupKeepFirst allSolvs)
             else sp1
  let tMedT := median (listOr (numsKey Precedent.T_C group) (numsKey Precedent.T_C precs))
  let tMedH := median (listOr (numsKey Precedent.time_h group) (numsKey Precedent.time_h precs))
  let conf0 := if 5 ≤ support then (95/100) * voteShare else (1/2) * voteShare
  let conf := max (3/10) (min (95/100) conf0)
  { core := chosen,
    base_uid := bp2.1,
    solvent_uid := sp2.1,
    T_C := tMedT,
    time_h := tMedH,
    confidence := pyRound3 conf }

/-- The descending divisor search of `_well_ids`
(`while rows > 1 and n % rows != 0: rows -= 1`). -/
def findRowsDown (n : ℕ) : ℕ → ℕ
  | 0 => 0
  | 1 => 1
  | r + 2 => if n % (r + 2) ≠ 0 then findRowsDown n (r + 1) else r + 2

/-- The row-major letter-number grid of well ids shared by `_well_ids` as
embedded below: row letters from `A`, column numbers from 1. -/
def gridIds (rows cols : ℕ) : List String :=
  (((List.range rows).map (fun i => Char.ofNat (65 + i))).map
    (fun L => (List.range cols).map
      (fun c => String.singleton L ++ Nat.repr (c + 1)))).flatten

/-- `_well_ids` from `chemtools/recommend.py`.  `int(math.sqrt(n))` is
modelled as `Nat.sqrt`; the columns are computed from the divisor-search
value before the row count is capped at 8, exactly as in the source.  The
source divides by zero when `n = 0`, a call the plate designer never makes
(its well loop is empty then); total natural division makes the value `[]`
here. -/
def wellIds (n : ℕ) : List String :=
  let rows0 := findRowsDown n (Nat.sqrt n)
  let rows1 := if rows0 ≤ 1 then min 8 n else rows0
  let cols0 := (n + rows1 - 1) / rows1
  (gridIds (max 1 (min 8 rows1)) (max 1 cols0)).take n

/-- One well row of a designed plate (`design_plate_from_reaction`).  The
CSV rendering of the plate is deterministic presentation of these rows and
is not modelled. -/
structure PlateRow where
  well_id : String
  core : String
  base_uid : String
  solvent_uid : String
  additive_uids : String
  T_C : Option ℚ
  time_h : Option ℚ
  deriving DecidableEq, Repr

/-- The observable outcome of `design_plate_from_reaction`: the well rows,
plus the `meta.error` marker used for the empty-core case. -/
structure PlateResult where
  rows : List PlateRow
  meta_error : Option String := Option.none
  deriving DecidableEq, Repr

/-- The cyclic core sequence of length `plate_size` built by
`design_plate_from_reaction` (round-robin over the frequency-ranked
cores; the list is nonempty when this is called). -/
def cycleCores (cores : List String) (n : ℕ) : List String :=
  (List.range n).map (fun i => cores.getD (i % cores.length) "")

/-- The frequency-ranked list of truthy core labels used by
`design_plate_from_reaction` (`[c for c, _ in core_counts.most_common()
if c]`). -/
def coreListOf (precs : List Precedent) : List String :=
  ((mostCommon (coreTallyOf precs)).map Prod.fst).filter (fun c => !c.isEmpty)

/-- One well row built by the plate loop: the source indexes
`_well_ids(plate_size)[i]`, which raises `IndexError` past the end of the
id list; that partiality is the `Option`. -/
def plateRowFor (applyF : List String → List String × List String) (hasRules : Bool)
    (precs : List Precedent) (ids : List String) (i : ℕ) (core : String) : Option PlateRow :=
  match ids.get? i with
  | Option.none => Option.none
  | some wid =>
    let group := precs.filter (fun p => coreStr p == core)
    let bases := (group.filter (fun p => p.base_uid.truthy)).map (fun p => pyStrOrEmpty p.base_uid)
    let solvents := (group.filter (fun p => p.solvent_uid.truthy)).map (fun p => pyStrOrEmpty p.solvent_uid)
    let baseList := (mostCommon (tally bases)).map Prod.fst
    let solvList := (mostCommon (tally solvents)).map Prod.fst
    let bp1 := pickWithConstraints applyF hasRules baseList
    let bp2 := if optFalsy bp1.1 then
                 pickWithConstraints applyF hasRules
                   (dedupKeepFirst ((precs.filter (fun p => p.base_uid.truthy)).map
                     (fun p => pyStrOrEmpty p.base_uid)))
               else bp1
    let sp1 := pickWithConstraints applyF hasRules solvList
    let sp2 := if optFalsy sp1.1 then
                 pickWithConstraints applyF hasRules
                   (dedupKeepFirst ((precs.filter (fun p => p.solvent_uid.truthy)).map
                     (fun p => pyStrOrEmpty p.solvent_uid)))
               else sp1
    let tMedT := median (listOr (numsKey Precedent.T_C group) (numsKey Precedent.T_C precs))
    let tMedH := median (listOr (numsKey Precedent.time_h group) (numsKey Precedent.time_h precs))
    some { well_id := wid,
           core := core,
           base_uid := (bp2.1).getD "",
           solvent_uid := (sp2.1).getD "",
           additive_uids := "",
           T_C := tMedT,
           time_h := tMedH }

/-- The enumerated well loop of `design_plate_from_reaction`
(`for i, core in enumerate(seq): ...`): builds the plate rows in order,
propagating the `IndexError` of an out-of-range well-id lookup as
`Option.none`. -/
def buildPlateRows (applyF : List String → List String × List String) (hasRules : Bool)
    (precs : List Precedent) (ids : List String) : ℕ → List String → Option (List PlateRow)
  | _, [] => some []
  | i, c :: rest =>
    match plateRowFor applyF hasRules precs ids i c with
    | Option.none => Option.none
    | some row =>
      match buildPlateRows applyF hasRules precs ids (i + 1) rest with
      | Option.none => Option.none
      | some rs => some (row :: rs)

/-- `design_plate_from_reaction` from `chemtools/recommend.py`, from the
precedent pack onwards (the pack is produced upstream by a
`recommend_from_reaction` run with `k = max(plate_size, 50)`).  The result
is `Option.none` exactly when the source raises (the well-id `IndexError`
for plates whose grid has fewer than `plate_size` wells). -/
def designPlateFromPack (applyF : List String → List String × List String) (hasRules : Bool)
    (pack : PrecedentPack) (plateSize : ℕ) : Option PlateResult :=
  let precs := pack.precedents
  let coreList := coreListOf precs
  if coreList.isEmpty then some { rows := [], meta_error := some "NO_PRECEDENTS" }
  else
    let seq := cycleCores coreList plateSize
    let ids := wellIds plateSize
    (buildPlateRows applyF hasRules precs ids 0 seq).map
      (fun rs => { rows := rs, meta_error := Option.none })

/-- Modelled from the spec (claim C7 wording): the well-id grid scheme —
rows = the largest `r ≤ ⌊√n⌋` with `r > 1` and `n % r = 0` (else
`r = min 8 n`), rows capped at 8, columns = `⌈n / rows⌉`, row letters from
`A` and column numbers from 1, enumerated row-major until `n` wells are
filled. -/
def specGridIds (n : ℕ) : List String :=
  let r0 :=
    match ((List.range (Nat.sqrt n + 1)).reverse).find?
        (fun r => decide (1 < r) && decide (n % r = 0)) with
    | some r => r
    | Option.none => min 8 n
  let rows := min 8 r0
  let cols := (n + rows - 1) / rows
  (gridIds rows cols).take n

/-- The precondition of the bounded-score claims: a record yield is a number
in `[0, 100]` or absent. -/
def yieldOk (r : Row) : Prop :=
  match r.yield_value with
  | .num q => 0 ≤ q ∧ q ≤ 100
  | .none => True
  | _ => False

instance (r : Row) : Decidable (yieldOk r) :=
  match hv : r.yield_value with
  | .num q => decidable_of_iff (0 ≤ q ∧ q ≤ 100) (by unfold yieldOk; rw [hv])
  | .none => decidable_of_iff True (by unfold yieldOk; rw [hv])
  | .bool b => decidable_of_iff False (by unfold yieldOk; rw [hv])
  | .str s => decidable_of_iff False (by unfold yieldOk; rw [hv])

/-- Decimal value of a digit character, for decoding `Nat.repr`. -/
def charVal (c : Char) : ℕ := c.toNat - 48

/-- Decode a decimal digit string back to a natural number. -/
def decodeDigits (l : List Char) : ℕ :=
  l.foldl (fun a c => 10 * a + charVal c) 0

/-! Concrete instantiations of the external collaborators and small
fixtures, used by the witnesses and counterexamples below. -/

/-- A concrete stand-in for `math.exp` (never consulted on the fixture
inputs, whose feature dicts carry no numeric keys). -/
def mexpOne : ℚ → ℚ := fun _ => 1

/-- A concrete string-hash function (one possible per-process salt). -/
def hashZero : String → ℤ := fun _ => 0

/-- A second concrete string-hash function (another possible salt). -/
def hashOne : String → ℤ := fun _ => 1

/-- The absent fingerprint encoder. -/
def encNone : String → ℤ → ℤ → Option (List Bool) := fun _ _ _ => Option.none

/-- A trivial external constraint filter (no rules are passed in the
modelled scenarios, so it is never consulted). -/
def applyFNil : List String → List String × List String := fun _ => ([], [])

/-- Query features carrying only a feature bin. -/
def featQ : FeatDict := [("bin", PyVal.str "LG:Br|NUC:aniline")]

/-- A one-row dataset for the C2 counterexample: the row belongs to family
`F` and carries no features, so it scores 0 against any target. -/
def rowRaise : Row := { rxn_type := PyVal.str "F" }

/-- A dataset row exactly matching `featQ` in family `F`. -/
def rowA : Row :=
  { rxn_type := PyVal.str "F", reaction_id := PyVal.str "RA",
    yield_value := PyVal.num 50,
    features := [("bin", PyVal.str "LG:Br|NUC:aniline")] }

/-- A family-`F` row with the query bin and explicit `LG`/`nuc_class`. -/
def rowExact : Row :=
  { rxn_type := PyVal.str "F", reaction_id := PyVal.str "R1",
    yield_value := PyVal.num 50,
    features := [("bin", PyVal.str "LG:Br|NUC:aniline"),
                 ("LG", PyVal.str "Br"), ("nuc_class", PyVal.str "aniline")] }

/-- A family-`F` row sharing only the nucleophile class with the query. -/
def rowNear : Row :=
  { rxn_type := PyVal.str "F", reaction_id := PyVal.str "R2",
    yield_value := PyVal.num 60,
    features := [("bin", PyVal.str "LG:Cl|NUC:aniline"),
                 ("LG", PyVal.str "Cl"), ("nuc_class", PyVal.str "aniline")] }

/-- A relax map requesting strict bin matching with `min_candidates = 2`. -/
def relaxStrict : Relax :=
  { strict_bin := some true, min_candidates := some 2 }

/-- Query fingerprint for the re-ranking scenario. -/
def fpQ : List Bool := [true, true, true, true]

/-- A fingerprint far from `fpQ` (Tanimoto 1/4). -/
def fpFar : List Bool := [true, false, false, false]

/-- Engineered fingerprint encoder for the re-ranking scenario: the second
record's fingerprint coincides with the query's, the first is far. -/
def encScen : String → ℤ → ℤ → Option (List Bool) := fun s _ _ =>
  if s = "Q" then some fpQ
  else if s = "R1s" then some fpFar
  else if s = "R2s" then some fpQ
  else Option.none

/-- Scenario record with the exact query bin, yield 50. -/
def rowScen1 : Row :=
  { rxn_type := PyVal.str "F", reaction_id := PyVal.str "R1",
    yield_value := PyVal.num 50, reaction_smiles := PyVal.str "R1s",
    features := [("bin", PyVal.str "LG:Br|NUC:aniline"),
                 ("LG", PyVal.str "Br"), ("nuc_class", PyVal.str "aniline")] }

/-- Scenario record with a disjoint bin, yield 50, fingerprint equal to the
query's. -/
def rowScen2 : Row :=
  { rxn_type := PyVal.str "F", reaction_id := PyVal.str "R2",
    yield_value := PyVal.num 50, reaction_smiles := PyVal.str "R2s",
    features := [("bin", PyVal.str "LG:Cl|NUC:phenol"),
                 ("LG", PyVal.str "Cl"), ("nuc_class", PyVal.str "phenol")] }

/-- The scenario relax map at fingerprint weight `w`. -/
def relaxScen (w : ℚ) : Relax :=
  { min_candidates := some 2, use_drfp := some true,
    reaction_smiles := some "Q", drfp_weight := some w }

/-- The scenario pack as a function of the fingerprint weight. -/
def packScen (w : ℚ) : PrecedentPack :=
  knnImpl hashZero mexpOne true encScen [rowScen1, rowScen2] "F" featQ 5 (relaxScen w)

/-- A family-`F` row for the prototype-id scenario. -/
def rowProto : Row :=
  { rxn_type := PyVal.str "F", reaction_id := PyVal.str "RB",
    yield_value := PyVal.num 50,
    features := [("bin", PyVal.str "LG:A|NUC:B"),
                 ("LG", PyVal.str "A"), ("nuc_class", PyVal.str "B")] }

/-- First prototype-id query: bin `LG:X|NUC:B`, matching nucleophile. -/
def featProto1 : FeatDict :=
  [("bin", PyVal.str "LG:X|NUC:B"), ("nuc_class", PyVal.str "B")]

/-- Second prototype-id query: same bin, different nucleophile class. -/
def featProto2 : FeatDict :=
  [("bin", PyVal.str "LG:X|NUC:B"), ("nuc_class", PyVal.str "C")]

/-- A precedent with core label `A` and no other data. -/
def precCoreA : Precedent :=
  { reaction_id := PyVal.str "R", reaction_smiles := PyVal.str "",
    condition_core := PyVal.str "A", yieldv := PyVal.num 50,
    core := PyVal.str "A", base_uid := PyVal.none, solvent_uid := PyVal.none,
    T_C := PyVal.none, time_h := PyVal.none }

/-- A pack observing the single core `A` (support 6). -/
def packCoreA : PrecedentPack :=
  { prototype_id := "p", support := 6, precedents := [precCoreA, precCoreA] }

/-- A three-precedent pack with a 2-to-1 core split (support 3). -/
def packSplit : PrecedentPack :=
  { prototype_id := "p", support := 3,
    precedents := [precCoreA, precCoreA,
      { precCoreA with core := PyVal.str "B", condition_core := PyVal.str "B" }] }

/-- The empty retrieval pack. -/
def packEmpty : PrecedentPack :=
  { prototype_id := "proto_X_none_0", support := 0, precedents := [],
    error := some "NO_PRECEDENTS" }

/-! ### Supporting lemmas -/

theorem similarity_nonneg_le_one (mexp : ℚ → ℚ) (a b : FeatDict) :
    0 ≤ similarity mexp a b ∧ similarity mexp a b ≤ 1 := by
  have hgen : ∀ sc tot : ℚ,
      0 ≤ (if tot ≤ 0 then (0:ℚ) else max 0 (min 1 (sc / tot))) ∧
      (if tot ≤ 0 then (0:ℚ) else max 0 (min 1 (sc / tot))) ≤ 1 := by
    intro sc tot
    split_ifs
    · exact ⟨le_rfl, zero_le_one⟩
    · exact ⟨le_max_left 0 _, max_le zero_le_one (min_le_left 1 _)⟩
  unfold similarity
  split_ifs with h1
  · exact ⟨zero_le_one, le_rfl⟩
  · exact hgen _ _

theorem simTotalFor_nonneg_le_one (mexp : ℚ → ℚ)
    (encode : String → ℤ → ℤ → Option (List Bool)) (bits radius : ℤ) (w : ℚ)
    (qfp : Option (List Bool)) (target : FeatDict) (r : Row) :
    0 ≤ simTotalFor mexp encode bits radius w qfp target r ∧
      simTotalFor mexp encode bits radius w qfp target r ≤ 1 := by
  unfold simTotalFor
  rcases qfp with _ | q
  · exact similarity_nonneg_le_one mexp target r.features
  · by_cases ht : r.reaction_smiles.truthy
    · rcases henc : encode r.reaction_smiles.pyStr bits radius with _ | rfp
      · simp only [ht, if_true, henc]
        exact similarity_nonneg_le_one mexp target r.features
      · simp only [ht, if_true, henc]
        exact ⟨le_max_left 0 _, max_le zero_le_one (min_le_left 1 _)⟩
    · simp only [ht, if_false]
      exact similarity_nonneg_le_one mexp target r.features

theorem yNorm_bounds (r : Row) (h : yieldOk r) :
    0 ≤ yNorm r.yield_value ∧ yNorm r.yield_value ≤ 1 := by
  unfold yieldOk at h
  unfold yNorm PyVal.isNum PyVal.asNum
  rcases hv : r.yield_value with _ | b | s | q <;> rw [hv] at h
  · simp
  · exact absurd h (by simp)
  · exact absurd h (by simp)
  · simp only [if_true]
    constructor
    · have := h.1; linarith
    · have := h.2; linarith

theorem scoredOf_mem_bounds (mexp : ℚ → ℚ)
    (encode : String → ℤ → ℤ → Option (List Bool)) (bits radius : ℤ) (w : ℚ)
    (qfp : Option (List Bool)) (target : FeatDict) (cands : List Row)
    (hyield : ∀ r ∈ cands, yieldOk r)
    (x : ℚ × Row) (hx : x ∈ scoredOf mexp encode bits radius w qfp target cands) :
    0 ≤ x.1 ∧ x.1 ≤ 1 := by
  unfold scoredOf at hx
  rcases List.mem_filterMap.mp hx with ⟨r, hr, hmk⟩
  by_cases hst : simTotalFor mexp encode bits radius w qfp target r ≤ 0
  · rw [if_pos hst] at hmk; cases hmk
  · rw [if_neg hst] at hmk
    rcases Option.some.inj hmk with rfl
    have hbd := simTotalFor_nonneg_le_one mexp encode bits radius w qfp target r
    have hy := yNorm_bounds r (hyield r hr)
    constructor
    · exact mul_nonneg hbd.1 (by linarith [hy.1])
    · exact mul_le_one₀ hbd.2 (by linarith [hy.1]) (by linarith [hy.2])

/-! ### Claim theorems -/

/-- C5: `similarity(a, b)` lies in `[0, 1]` for all inputs (the source also
returns 0.0 outright on a nonpositive weight denominator, a branch included
in the embedding), and every neighbor score produced by the kNN scoring loop
lies in `[0, 1]` provided the candidate records' yields are numbers in
`[0, 100]` or absent. -/
theorem similarity_and_neighbor_scores_bounded
    (mexp : ℚ → ℚ) (a b : FeatDict)
    (encode : String → ℤ → ℤ → Option (List Bool)) (drfpAvail : Bool) (relax : Relax)
    (target : FeatDict) (cands : List Row)
    (hyield : ∀ r ∈ cands, yieldOk r)
    (x : ℚ × Row) (hx : x ∈ knnScoredOf mexp encode drfpAvail relax target cands) :
    (0 ≤ similarity mexp a b ∧ similarity mexp a b ≤ 1) ∧ (0 ≤ x.1 ∧ x.1 ≤ 1) :=
  ⟨similarity_nonneg_le_one mexp a b,
   scoredOf_mem_bounds mexp encode (relax.drfp_n_bits.getD 4096) (relax.drfp_radius.getD 3)
     (relax.drfp_weight.getD (40/100)) (qfpOf drfpAvail encode relax) target cands hyield x hx⟩

/-- Witness for C5 at a concrete scored candidate. -/
theorem similarity_and_neighbor_scores_bounded_witness :
    (∀ r ∈ [rowA], yieldOk r) ∧
    ((3/4 : ℚ), rowA) ∈ knnScoredOf mexpOne encNone false {} (targetFeatOf featQ) [rowA] ∧
    ((0 ≤ similarity mexpOne [] [] ∧ similarity mexpOne [] [] ≤ 1) ∧
      (0 ≤ ((3/4 : ℚ), rowA).1 ∧ ((3/4 : ℚ), rowA).1 ≤ 1)) :=
  ⟨by decide, of_decide_eq_true (by with_unfolding_all rfl),
   similarity_and_neighbor_scores_bounded mexpOne [] [] encNone false {}
     (targetFeatOf featQ) [rowA] (by decide) ((3/4 : ℚ), rowA)
     (of_decide_eq_true (by with_unfolding_all rfl))⟩

/-- C4 (amended): `similarity(a, a) = 1.0` for every feature set whose
feature-bin string is truthy (every featurizer output carries a nonempty
`bin`); a feature dict without a truthy bin and with missing attribute keys
scores below 1 against itself. -/
theorem similarity_self_eq_one (mexp : ℚ → ℚ) (a : FeatDict)
    (h : (dget a "bin").truthy = true) : similarity mexp a a = 1 := by
  unfold similarity
  rw [if_pos ⟨rfl, h⟩]

/-- Witness for C4 on a featurizer-shaped feature set. -/
theorem similarity_self_eq_one_witness :
    (dget featQ "bin").truthy = true ∧ similarity mexpOne featQ featQ = 1 :=
  ⟨of_decide_eq_true (by with_unfolding_all rfl),
   similarity_self_eq_one mexpOne featQ (of_decide_eq_true (by with_unfolding_all rfl))⟩

/-- Counterexample for C4 as stated: the empty feature dict is accepted by
the scorer but `similarity(a, a)` is 0, not 1. -/
theorem similarity_self_empty_counterexample :
    similarity mexpOne ([] : FeatDict) ([] : FeatDict) = 0 ∧
    similarity mexpOne ([] : FeatDict) ([] : FeatDict) ≠ 1 := by
  constructor <;> exact of_decide_eq_true (by with_unfolding_all rfl)

/-- C1 (amended): every `knn` pack satisfies
`len(precedents) ≤ max(1, k)` (hence `≤ k` whenever `k ≥ 1`),
`len(precedents) ≤ support`, and `len(precedents) ≤ 10`. -/
theorem knn_precedents_capped (pyHash : String → ℤ) (mexp : ℚ → ℚ) (drfpAvail : Bool)
    (encode : String → ℤ → ℤ → Option (List Bool)) (rows : List Row)
    (family : String) (features : FeatDict) (k : ℕ) (relax : Relax) :
    (knn pyHash mexp drfpAvail encode rows family features k relax).precedents.length ≤ max 1 k ∧
    (knn pyHash mexp drfpAvail encode rows family features k relax).precedents.length ≤
      (knn pyHash mexp drfpAvail encode rows family features k relax).support ∧
    (knn pyHash mexp drfpAvail encode rows family features k relax).precedents.length ≤ 10 := by
  simp only [knn, knnImpl]
  split_ifs with h1 h2
  · simp [noPrecPack]
  · simp [noPrecPack]
  · simp only [List.length_map, List.length_take, List.length_insertionSort]
    omega

/-- Counterexample for C1 as stated: a `knn` call with `k = 0` on a
one-record family still returns one precedent, so `len(precedents) ≤ k`
fails. -/
theorem knn_precedents_k_zero_counterexample :
    ¬ ((knn hashZero mexpOne false encNone [rowA] "F" featQ 0 {}).precedents.length ≤ 0) :=
  of_decide_eq_true (by with_unfolding_all rfl)

/-- C3: the candidate pool broadens past the exact-bin matches even when
`strict_bin` is true, because the source reads `strict_bin` but never uses
it.  At this input the pool returned under `strict_bin = true` contains a
record whose feature bin differs from the target bin. -/
theorem candidate_pool_ignores_strict_bin :
    relaxStrict.strict_bin = some true ∧
    candidatePool [rowExact, rowNear] "F" featQ 5 relaxStrict = [rowExact, rowNear] ∧
    pyOrEmpty (dget rowNear.features "bin") ≠
      PyVal.str ((pyStrOrEmpty (dget featQ "bin")).trim) := by
  exact ⟨rfl, of_decide_eq_true (by with_unfolding_all rfl),
    of_decide_eq_true (by with_unfolding_all rfl)⟩

theorem pyStrOr_eq_some (v : PyVal) (s : String) (h : pyStrOr v = some s) :
    pyStrOrEmpty v = s := by
  unfold pyStrOr at h
  unfold pyStrOrEmpty
  by_cases ht : v.truthy = true
  · rw [if_pos ht] at h
    rw [if_pos ht]
    cases v with
    | str s2 => exact Option.some.inj h
    | none => exact Option.noConfusion h
    | bool b => exact Option.noConfusion h
    | num q => exact Option.noConfusion h
  · rw [if_neg ht] at h
    rw [if_neg ht]
    exact Option.some.inj h

theorem candidatePoolE_eq_some (rows : List Row) (familyTxt : String) (feat : FeatDict)
    (k : ℕ) (relax : Relax)
    (hb : (pyStrOr (dget feat "bin")).isSome = true)
    (hn : (dget feat "nuc_class").truthy = true →
          (pyStrOr (dget feat "nuc_class")).isSome = true) :
    candidatePoolE rows familyTxt feat k relax =
      some (candidatePool rows familyTxt feat k relax) := by
  obtain ⟨tb, htb⟩ := Option.isSome_iff_exists.mp hb
  have htb2 : pyStrOrEmpty (dget feat "bin") = tb := pyStrOr_eq_some _ _ htb
  unfold candidatePoolE candidatePool
  by_cases hf : (rows.filter (fun r => pyOrEmpty r.rxn_type == PyVal.str familyTxt)).isEmpty = true
  · rw [if_pos hf, if_pos hf]
  · rw [if_neg hf, if_neg hf, htb, htb2]
    by_cases ht : (dget feat "nuc_class").truthy = true
    · obtain ⟨nc, hnc⟩ := Option.isSome_iff_exists.mp (hn ht)
      have hnc2 : (dget feat "nuc_class").pyStr = nc := by
        have h3 := pyStrOr_eq_some _ _ hnc
        unfold pyStrOrEmpty at h3
        rwa [if_pos ht] at h3
      simp only [if_pos ht, hnc, hnc2]
      exact (apply_ite some _ _ _).symm
    · simp only [if_neg ht]
      exact (apply_ite some _ _ _).symm

theorem knnE_eq_some (pyHash : String → ℤ) (mexp : ℚ → ℚ) (drfpAvail : Bool)
    (encode : String → ℤ → ℤ → Option (List Bool)) (rows : List Row)
    (family : String) (features : FeatDict) (k : ℕ) (relax : Relax)
    (hb : (pyStrOr (dget (asKV features) "bin")).isSome = true)
    (hn : (dget (asKV features) "nuc_class").truthy = true →
          (pyStrOr (dget (asKV features) "nuc_class")).isSome = true) :
    knnE pyHash mexp drfpAvail encode rows family features k relax =
      some (knn pyHash mexp drfpAvail encode rows family features k relax) := by
  unfold knnE knnImplE knn
  rw [candidatePoolE_eq_some rows (familyText family) (asKV features) k relax hb hn]

/-- C2 (amended): when the two raising reads of `_candidate_pool` on the
target features cannot raise — their `bin` and `nuc_class` values are
strings or falsy, as in every documented call — `knn` raises no exception
and, whenever the candidate pool is empty or every candidate's combined
similarity score is nonpositive, returns exactly
`{support: 0, precedents: [], error: NO_PRECEDENTS}` with a prototype id
ending in `_none_0`.  The unconditional never-raises reading of the claim
fails: see the counterexample with a truthy non-string bin. -/
theorem knn_no_precedents_pack
    (pyHash : String → ℤ) (mexp : ℚ → ℚ) (drfpAvail : Bool)
    (encode : String → ℤ → ℤ → Option (List Bool)) (rows : List Row)
    (family : String) (features : FeatDict) (k : ℕ) (relax : Relax)
    (hb : (pyStrOr (dget (asKV features) "bin")).isSome = true)
    (hn : (dget (asKV features) "nuc_class").truthy = true →
          (pyStrOr (dget (asKV features) "nuc_class")).isSome = true)
    (h : candidatePool rows (familyText family) (asKV features) k relax = [] ∨
         ∀ r ∈ candidatePool rows (familyText family) (asKV features) k relax,
           knnSimTotal mexp encode drfpAvail relax (targetFeatOf (asKV features)) r ≤ 0) :
    knnE pyHash mexp drfpAvail encode rows family features k relax =
      some { prototype_id := "proto_" ++ protoFamilyId (familyText family) ++ "_none_0",
             support := 0, precedents := [], error := some "NO_PRECEDENTS" } ∧
    knn pyHash mexp drfpAvail encode rows family features k relax =
      { prototype_id := "proto_" ++ protoFamilyId (familyText family) ++ "_none_0",
        support := 0, precedents := [], error := some "NO_PRECEDENTS" } ∧
    ∃ p, (knn pyHash mexp drfpAvail encode rows family features k relax).prototype_id =
      p ++ "_none_0" := by
  have hmain : knn pyHash mexp drfpAvail encode rows family features k relax =
      noPrecPack (familyText family) := by
    by_cases hc : (candidatePool rows (familyText family) (asKV features) k relax).isEmpty = true
    · simp only [knn, knnImpl, hc, if_true]
    · rcases h with h | h
      · rw [h] at hc
        simp at hc
      · have hsc : knnScoredOf mexp encode drfpAvail relax (targetFeatOf (asKV features))
            (candidatePool rows (familyText family) (asKV features) k relax) = [] := by
          unfold knnScoredOf scoredOf
          refine List.filterMap_eq_nil_iff.mpr ?_
          intro r hr
          have hst := h r hr
          unfold knnSimTotal at hst
          simp [hst]
        simp only [knn, knnImpl, hc, if_false, hsc, List.isEmpty_nil, if_true]
        rfl
  refine ⟨?_, by rw [hmain]; rfl,
    ⟨"proto_" ++ protoFamilyId (familyText family), by rw [hmain]; rfl⟩⟩
  rw [knnE_eq_some pyHash mexp drfpAvail encode rows family features k relax hb hn, hmain]
  rfl

/-- Witness for C2 on an empty dataset (the read hypotheses hold because the
feature dict is empty, so both reads see a falsy value). -/
theorem knn_no_precedents_pack_witness :
    (pyStrOr (dget (asKV ([] : FeatDict)) "bin")).isSome = true ∧
    candidatePool ([] : List Row) (familyText "Fam") (asKV ([] : FeatDict)) 5 {} = [] ∧
    (knnE hashZero mexpOne false encNone [] "Fam" [] 5 {} =
      some { prototype_id := "proto_" ++ protoFamilyId (familyText "Fam") ++ "_none_0",
             support := 0, precedents := [], error := some "NO_PRECEDENTS" } ∧
     knn hashZero mexpOne false encNone [] "Fam" [] 5 {} =
      { prototype_id := "proto_" ++ protoFamilyId (familyText "Fam") ++ "_none_0",
        support := 0, precedents := [], error := some "NO_PRECEDENTS" } ∧
     ∃ p, (knn hashZero mexpOne false encNone [] "Fam" [] 5 {}).prototype_id =
       p ++ "_none_0") :=
  ⟨of_decide_eq_true (by with_unfolding_all rfl),
   of_decide_eq_true (by with_unfolding_all rfl),
   knn_no_precedents_pack hashZero mexpOne false encNone [] "Fam" [] 5 {}
     (of_decide_eq_true (by with_unfolding_all rfl))
     (fun _ => of_decide_eq_true (by with_unfolding_all rfl))
     (Or.inl (of_decide_eq_true (by with_unfolding_all rfl)))⟩

/-- C2 counterexample to the original never-raises reading: on the features
`{"bin": 5}` — a truthy non-string bin — against a one-row family `F`, the
candidate pool of the total embedding is the whole family and the single
candidate's combined score is 0 (the case the claim addresses), yet the
program raises `AttributeError` at `(feat.get("bin") or "").strip()`
(precedent.py:201) instead of returning a NO_PRECEDENTS pack: the
exception-aware `knn` returns the exception value, not a pack. -/
theorem knn_raises_on_nonstring_bin :
    knnE hashZero mexpOne false encNone [rowRaise] "F" [("bin", PyVal.num 5)] 5 {} =
      Option.none ∧
    candidatePool [rowRaise] (familyText "F") (asKV [("bin", PyVal.num 5)]) 5 {} =
      [rowRaise] ∧
    knnScoredOf mexpOne encNone false {} (targetFeatOf (asKV [("bin", PyVal.num 5)]))
      [rowRaise] = [] := by
  refine ⟨?_, ?_, ?_⟩ <;> exact of_decide_eq_true (by with_unfolding_all rfl)

theorem knnImpl_prototype_of_support_ne_zero
    (pyHash : String → ℤ) (mexp : ℚ → ℚ) (drfpAvail : Bool)
    (encode : String → ℤ → ℤ → Option (List Bool)) (rows : List Row)
    (family : String) (features : FeatDict) (k : ℕ) (relax : Relax)
    (h : (knnImpl pyHash mexp drfpAvail encode rows family features k relax).support ≠ 0) :
    (knnImpl pyHash mexp drfpAvail encode rows family features k relax).prototype_id =
      "proto_" ++ protoFamilyId (familyText family) ++ "_" ++
        toString ((pyHash (binKeyOf features (targetFeatOf features))).natAbs % 100000) := by
  by_cases h1 : (candidatePool rows (familyText family) features k relax).isEmpty = true
  · exact absurd (by simp only [knnImpl, h1, if_true]; rfl) h
  · by_cases h2 : (knnScoredOf mexp encode drfpAvail relax (targetFeatOf features)
        (candidatePool rows (familyText family) features k relax)).isEmpty = true
    · exact absurd (by simp only [knnImpl, h1, if_false, h2, if_true]; rfl) h
    · simp only [knnImpl, h1, if_false, h2]
      rfl

/-- C9 (amended): within one program run (one string-hash function), for
calls whose support is positive, `prototype_id` is a pure function of
(family, feature-bin string): any two such calls with equal family and equal
truthy bin strings produce the identical id
`"proto_" + normalize(family) + "_" + (abs(hash(bin)) % 100000)`,
whatever their other features, dataset, k or relax configuration. -/
theorem prototype_id_pure_within_run
    (pyHash : String → ℤ) (mexp mexp2 : ℚ → ℚ) (dav dav2 : Bool)
    (enc enc2 : String → ℤ → ℤ → Option (List Bool)) (rows rows2 : List Row)
    (family : String) (features features2 : FeatDict) (k k2 : ℕ) (relax relax2 : Relax)
    (b : String) (hb : b ≠ "")
    (h1 : dget features "bin" = PyVal.str b) (h2 : dget features2 "bin" = PyVal.str b)
    (hs1 : (knnImpl pyHash mexp dav enc rows family features k relax).support ≠ 0)
    (hs2 : (knnImpl pyHash mexp2 dav2 enc2 rows2 family features2 k2 relax2).support ≠ 0) :
    (knnImpl pyHash mexp dav enc rows family features k relax).prototype_id =
      (knnImpl pyHash mexp2 dav2 enc2 rows2 family features2 k2 relax2).prototype_id ∧
    (knnImpl pyHash mexp dav enc rows family features k relax).prototype_id =
      "proto_" ++ protoFamilyId (familyText family) ++ "_" ++
        toString ((pyHash b).natAbs % 100000) := by
  have hbe : b.isEmpty = false := by
    cases hbe : b.isEmpty
    · rfl
    · exact absurd ((String.isEmpty_iff b).mp hbe) hb
  have htr : (PyVal.str b).truthy = true := by
    simp [PyVal.truthy, hbe]
  have hbk1 : binKeyOf features (targetFeatOf features) = b := by
    unfold binKeyOf
    rw [h1, if_pos htr]
    rfl
  have hbk2 : binKeyOf features2 (targetFeatOf features2) = b := by
    unfold binKeyOf
    rw [h2, if_pos htr]
    rfl
  have e1 := knnImpl_prototype_of_support_ne_zero pyHash mexp dav enc rows family
    features k relax hs1
  have e2 := knnImpl_prototype_of_support_ne_zero pyHash mexp2 dav2 enc2 rows2 family
    features2 k2 relax2 hs2
  rw [hbk1] at e1
  rw [hbk2] at e2
  exact ⟨e1.trans e2.symm, e1⟩

/-- Witness for C9 at a concrete positive-support call. -/
theorem prototype_id_pure_within_run_witness :
    ("LG:X|NUC:B" : String) ≠ "" ∧
    dget featProto1 "bin" = PyVal.str "LG:X|NUC:B" ∧
    (knnImpl hashZero mexpOne false encNone [rowProto] "F" featProto1 1 {}).support ≠ 0 ∧
    ((knnImpl hashZero mexpOne false encNone [rowProto] "F" featProto1 1 {}).prototype_id =
       (knnImpl hashZero mexpOne false encNone [rowProto] "F" featProto1 1 {}).prototype_id ∧
     (knnImpl hashZero mexpOne false encNone [rowProto] "F" featProto1 1 {}).prototype_id =
       "proto_" ++ protoFamilyId (familyText "F") ++ "_" ++
         toString ((hashZero "LG:X|NUC:B").natAbs % 100000)) :=
  ⟨by decide, by decide,
   of_decide_eq_true (by with_unfolding_all rfl),
   prototype_id_pure_within_run hashZero mexpOne mexpOne false false encNone encNone
     [rowProto] [rowProto] "F" featProto1 featProto1 1 1 {} {} "LG:X|NUC:B"
     (by decide) (by decide) (by decide)
     (of_decide_eq_true (by with_unfolding_all rfl))
     (of_decide_eq_true (by with_unfolding_all rfl))⟩

/-- Counterexample for C9 as stated: two calls in the same run (same hash
function, same dataset) with the same family and the same bin string produce
different prototype ids, because one retrieval ends with support 0 and takes
the `_none_0` form. -/
theorem prototype_id_not_function_of_family_bin :
    dget featProto1 "bin" = dget featProto2 "bin" ∧
    (knnImpl hashZero mexpOne false encNone [rowProto] "F" featProto1 1 {}).prototype_id =
      "proto_F_0" ∧
    (knnImpl hashZero mexpOne false encNone [rowProto] "F" featProto2 1 {}).prototype_id =
      "proto_F_none_0" ∧
    (knnImpl hashZero mexpOne false encNone [rowProto] "F" featProto1 1 {}).prototype_id ≠
      (knnImpl hashZero mexpOne false encNone [rowProto] "F" featProto2 1 {}).prototype_id := by
  refine ⟨by decide, ?_, ?_, ?_⟩ <;> exact of_decide_eq_true (by with_unfolding_all rfl)

/-- C10: on an empty retrieval pack (support 0, NO_PRECEDENTS) the
aggregation phase of `recommend_from_reaction` neither raises (it is a total
function) nor marks the recommendation as an error: all of core, base,
solvent, temperature and time are `None` and the confidence is exactly 0.3,
the lower clamp. -/
theorem recommend_empty_pack_defaults
    (applyF : List String → List String × List String) (hasRules : Bool)
    (pack : PrecedentPack) (hp : pack.precedents = []) (hs : pack.support = 0) :
    (recommendAggregate applyF hasRules pack).core = Option.none ∧
    (recommendAggregate applyF hasRules pack).base_uid = Option.none ∧
    (recommendAggregate applyF hasRules pack).solvent_uid = Option.none ∧
    (recommendAggregate applyF hasRules pack).T_C = Option.none ∧
    (recommendAggregate applyF hasRules pack).time_h = Option.none ∧
    (recommendAggregate applyF hasRules pack).confidence = 3/10 := by
  rcases pack with ⟨pid, sup, precs, err⟩
  simp only at hp hs
  subst hp
  subst hs
  simp only [recommendAggregate, supportOf, chosenCoreOf, coreTallyOf, tally, coreScore,
    argmaxFirst, voteShareOf, coreStr, pickWithConstraints, optFalsy, dedupKeepFirst,
    median, numsKey, listOr, mostCommon, List.filter_nil, List.map_nil, List.foldl_nil,
    List.isEmpty_nil, if_true, List.insertionSort, pyRound3]
  norm_num [rhe]

/-- Witness for C10 on the concrete empty pack. -/
theorem recommend_empty_pack_defaults_witness :
    packEmpty.precedents = [] ∧ packEmpty.support = 0 ∧
    ((recommendAggregate applyFNil false packEmpty).core = Option.none ∧
     (recommendAggregate applyFNil false packEmpty).base_uid = Option.none ∧
     (recommendAggregate applyFNil false packEmpty).solvent_uid = Option.none ∧
     (recommendAggregate applyFNil false packEmpty).T_C = Option.none ∧
     (recommendAggregate applyFNil false packEmpty).time_h = Option.none ∧
     (recommendAggregate applyFNil false packEmpty).confidence = 3/10) :=
  ⟨rfl, rfl, recommend_empty_pack_defaults applyFNil false packEmpty rfl rfl⟩

theorem recommendAggregate_core_def
    (applyF : List String → List String × List String) (hasRules : Bool)
    (pack : PrecedentPack) :
    (recommendAggregate applyF hasRules pack).core = chosenCoreOf pack.precedents := rfl

theorem recommendAggregate_confidence_def
    (applyF : List String → List String × List String) (hasRules : Bool)
    (pack : PrecedentPack) :
    (recommendAggregate applyF hasRules pack).confidence =
      pyRound3 (max (3/10) (min (95/100)
        (if 5 ≤ supportOf pack then (95/100) * voteShareOf pack.precedents
         else (1/2) * voteShareOf pack.precedents))) := rfl

theorem tally_replicate_aux (L : String) : ∀ (n m : ℕ),
    List.foldl (fun acc x =>
      if acc.any (fun p => p.1 == x) then
        acc.map (fun p => if p.1 == x then (p.1, p.2 + 1) else p)
      else acc ++ [(x, 1)]) [(L, m)] (List.replicate n L) = [(L, m + n)] := by
  intro n
  induction n with
  | zero => intro m; simp
  | succ n ih =>
    intro m
    rw [List.replicate_succ, List.foldl_cons]
    simp only [List.any_cons, List.any_nil, beq_self_eq_true, Bool.true_or, if_true,
      List.map_cons, List.map_nil]
    have := ih (m + 1)
    simp only [this]
    congr 2
    omega

theorem tally_replicate (L : String) (n : ℕ) (h : n ≠ 0) :
    tally (List.replicate n L) = [(L, n)] := by
  cases n with
  | zero => cases h rfl
  | succ n =>
    unfold tally
    rw [List.replicate_succ, List.foldl_cons]
    simp only [List.any_nil, Bool.false_eq_true, if_false, List.nil_append]
    have := tally_replicate_aux L n 1
    simp only [this]
    congr 2
    omega

theorem coreTallyOf_unanimous (precs : List Precedent) (L : String)
    (hne : precs ≠ [])
    (hall : ∀ p ∈ precs, p.core.truthy = true ∧ coreStr p = L) :
    coreTallyOf precs = [(L, precs.length)] := by
  unfold coreTallyOf
  have hfil : precs.filter (fun p => p.core.truthy) = precs :=
    List.filter_eq_self.mpr (fun p hp => (hall p hp).1)
  rw [hfil]
  have hmap : precs.map coreStr = List.replicate precs.length L := by
    have hlen : (precs.map coreStr).length = precs.length := List.length_map _ _
    rw [← hlen]
    rw [List.eq_replicate_length]
    intro b hb
    rcases List.mem_map.mp hb with ⟨p, hp, rfl⟩
    exact (hall p hp).2
  rw [hmap]
  exact tally_replicate L precs.length (fun h0 => hne (List.length_eq_zero.mp h0))

theorem chosenCoreOf_unanimous (precs : List Precedent) (L : String)
    (hne : precs ≠ [])
    (hall : ∀ p ∈ precs, p.core.truthy = true ∧ coreStr p = L) :
    chosenCoreOf precs = some L := by
  unfold chosenCoreOf
  rw [coreTallyOf_unanimous precs L hne hall]
  rfl

theorem voteShareOf_unanimous (precs : List Precedent) (L : String)
    (hne : precs ≠ [])
    (hall : ∀ p ∈ precs, p.core.truthy = true ∧ coreStr p = L) :
    voteShareOf precs = 1 := by
  unfold voteShareOf
  rw [chosenCoreOf_unanimous precs L hne hall, coreTallyOf_unanimous precs L hne hall]
  have hn : precs.length ≠ 0 := fun h0 => hne (List.length_eq_zero.mp h0)
  have hcount : countIn [(L, precs.length)] L = precs.length := by
    simp [countIn]
  simp only [hcount, List.map_cons, List.map_nil, List.sum_cons, List.sum_nil, Nat.add_zero]
  rw [max_eq_right (Nat.one_le_iff_ne_zero.mpr hn)]
  exact div_self (by exact_mod_cast hn)

theorem rhe_ge (a : ℤ) (x : ℚ) (h : (a:ℚ) ≤ x) : a ≤ rhe x := by
  have hf : a ≤ ⌊x⌋ := Int.le_floor.mpr h
  simp only [rhe]
  split_ifs <;> omega

theorem rhe_le (b : ℤ) (x : ℚ) (h : x ≤ (b:ℚ)) : rhe x ≤ b := by
  have hf : ⌊x⌋ ≤ b := by
    have := Int.floor_le_floor h
    rwa [Int.floor_intCast] at this
  have hfr : (⌊x⌋ : ℚ) ≤ x := Int.floor_le x
  simp only [rhe]
  split_ifs with h1 h2 h3
  · omega
  · have hflt : ⌊x⌋ < b := by
      have hr : (1:ℚ)/2 ≤ x - ⌊x⌋ := not_lt.mp h1
      have hq : (⌊x⌋:ℚ) < (b:ℚ) := by linarith
      exact_mod_cast hq
    omega
  · omega
  · have hflt : ⌊x⌋ < b := by
      have hr : (1:ℚ)/2 ≤ x - ⌊x⌋ := not_lt.mp h1
      have hq : (⌊x⌋:ℚ) < (b:ℚ) := by linarith
      exact_mod_cast hq
    omega

theorem pyRound3_bounds (x : ℚ) (h1 : 3/10 ≤ x) (h2 : x ≤ 95/100) :
    3/10 ≤ pyRound3 x ∧ pyRound3 x ≤ 95/100 := by
  have g1 : (300:ℤ) ≤ rhe (1000 * x) := rhe_ge 300 _ (by push_cast; linarith)
  have g2 : rhe (1000 * x) ≤ (950:ℤ) := rhe_le 950 _ (by push_cast; linarith)
  have c1 : (300:ℚ) ≤ ((rhe (1000 * x) : ℤ) : ℚ) := by exact_mod_cast g1
  have c2 : ((rhe (1000 * x) : ℤ) : ℚ) ≤ 950 := by exact_mod_cast g2
  unfold pyRound3
  constructor <;> linarith

theorem confidence_in_range
    (applyF : List String → List String × List String) (hasRules : Bool)
    (pack : PrecedentPack) :
    3/10 ≤ (recommendAggregate applyF hasRules pack).confidence ∧
      (recommendAggregate applyF hasRules pack).confidence ≤ 95/100 := by
  rw [recommendAggregate_confidence_def]
  apply pyRound3_bounds
  · exact le_max_left _ _
  · exact max_le (by norm_num) (min_le_left _ _)

/-- C8: when every precedent of a non-empty pack carries the same core
label, the aggregator chooses that label and the reported confidence equals
`vote_share * (0.95 if support >= 5 else 0.5)` clamped to `[0.30, 0.95]`
(the 3-decimal rounding is exact there since the vote share is 1); and the
confidence of any aggregation lies in `[0.30, 0.95]`. -/
theorem aggregator_unanimous_core
    (applyF : List String → List String × List String) (hasRules : Bool)
    (pack pack2 : PrecedentPack) (L : String)
    (hne : pack.precedents ≠ [])
    (hall : ∀ p ∈ pack.precedents, p.core.truthy = true ∧ coreStr p = L) :
    (recommendAggregate applyF hasRules pack).core = some L ∧
    (recommendAggregate applyF hasRules pack).confidence =
      max (3/10) (min (95/100)
        (voteShareOf pack.precedents *
          (if 5 ≤ supportOf pack then (95:ℚ)/100 else 1/2))) ∧
    (3/10 ≤ (recommendAggregate applyF hasRules pack2).confidence ∧
      (recommendAggregate applyF hasRules pack2).confidence ≤ 95/100) := by
  have hvs := voteShareOf_unanimous pack.precedents L hne hall
  refine ⟨?_, ?_, confidence_in_range applyF hasRules pack2⟩
  · rw [recommendAggregate_core_def]
    exact chosenCoreOf_unanimous pack.precedents L hne hall
  · rw [recommendAggregate_confidence_def, hvs]
    by_cases hsup : 5 ≤ supportOf pack
    · rw [if_pos hsup, if_pos hsup]
      norm_num [pyRound3, rhe]
    · rw [if_neg hsup, if_neg hsup]
      norm_num [pyRound3, rhe]

/-- Witness for C8 on a unanimous two-precedent pack (and the range part on
a split pack). -/
theorem aggregator_unanimous_core_witness :
    packCoreA.precedents ≠ [] ∧
    (∀ p ∈ packCoreA.precedents, p.core.truthy = true ∧ coreStr p = "A") ∧
    ((recommendAggregate applyFNil false packCoreA).core = some "A" ∧
     (recommendAggregate applyFNil false packCoreA).confidence =
       max (3/10) (min (95/100)
         (voteShareOf packCoreA.precedents *
           (if 5 ≤ supportOf packCoreA then (95:ℚ)/100 else 1/2))) ∧
     (3/10 ≤ (recommendAggregate applyFNil false packSplit).confidence ∧
       (recommendAggregate applyFNil false packSplit).confidence ≤ 95/100)) :=
  ⟨by decide, by decide,
   aggregator_unanimous_core applyFNil false packCoreA packSplit "A" (by decide) (by decide)⟩

theorem insertionSort_pair {α : Type} (r : α → α → Prop) [DecidableRel r] (a b : α) :
    List.insertionSort r [a, b] = if r a b then [a, b] else [b, a] := by
  simp [List.insertionSort, List.orderedInsert]

theorem candidatePool_congr_relax (rows : List Row) (familyTxt : String) (feat : FeatDict)
    (k : ℕ) (r1 r2 : Relax) (hm : r1.min_candidates = r2.min_candidates)
    (hf : r1.fallback_order = r2.fallback_order) :
    candidatePool rows familyTxt feat k r1 = candidatePool rows familyTxt feat k r2 := by
  unfold candidatePool
  rw [hm, hf]

theorem scen_simTotal_r1 (w : ℚ) (h0 : 0 ≤ w) (h1 : w ≤ 1) :
    simTotalFor mexpOne encScen 4096 3 w (some fpQ) (targetFeatOf featQ) rowScen1 =
      1 - (3/4) * w := by
  have s1 : similarity mexpOne (targetFeatOf featQ) rowScen1.features = 1 :=
    of_decide_eq_true (by with_unfolding_all rfl)
  have htr : rowScen1.reaction_smiles.truthy = true := by decide
  have he : encScen rowScen1.reaction_smiles.pyStr 4096 3 = some fpFar := by decide
  have t1 : tanimoto fpQ fpFar = 1/4 := of_decide_eq_true (by with_unfolding_all rfl)
  simp only [simTotalFor, s1, htr, if_true, he, t1]
  rw [min_eq_right (by linarith), max_eq_right (by linarith)]
  ring

theorem scen_simTotal_r2 (w : ℚ) (h0 : 0 ≤ w) (h1 : w ≤ 1) :
    simTotalFor mexpOne encScen 4096 3 w (some fpQ) (targetFeatOf featQ) rowScen2 = w := by
  have s2 : similarity mexpOne (targetFeatOf featQ) rowScen2.features = 0 :=
    of_decide_eq_true (by with_unfolding_all rfl)
  have htr : rowScen2.reaction_smiles.truthy = true := by decide
  have he : encScen rowScen2.reaction_smiles.pyStr 4096 3 = some fpQ := by decide
  have t2 : tanimoto fpQ fpQ = 1 := of_decide_eq_true (by with_unfolding_all rfl)
  simp only [simTotalFor, s2, htr, if_true, he, t2]
  rw [min_eq_right (by linarith), max_eq_right (by linarith)]
  ring

theorem scen_yfactor : (1/2 : ℚ) + 1/2 * yNorm rowScen1.yield_value = 3/4 ∧
    (1/2 : ℚ) + 1/2 * yNorm rowScen2.yield_value = 3/4 := by
  constructor <;>
    · simp only [yNorm, PyVal.isNum, PyVal.asNum]
      norm_num [rowScen1, rowScen2]

theorem scen_scored (w : ℚ) (h0 : 0 < w) (h1 : w ≤ 1) :
    scoredOf mexpOne encScen 4096 3 w (some fpQ) (targetFeatOf featQ) [rowScen1, rowScen2] =
      [((1 - (3/4) * w) * (3/4), rowScen1), (w * (3/4), rowScen2)] := by
  have e1 := scen_simTotal_r1 w h0.le h1
  have e2 := scen_simTotal_r2 w h0.le h1
  have hy := scen_yfactor
  unfold scoredOf
  simp only [List.filterMap_cons, List.filterMap_nil, e1, e2]
  rw [if_neg (by intro hc; linarith), if_neg (by intro hc; linarith)]
  rw [hy.1, hy.2]

/-- C6: in the engineered two-record scenario with equal yields, the kNN
ranking puts the exact-bin record first when `drfp_weight = 0` (the other
record then scores 0 and is dropped); the gap between the two records'
blended totals is monotone in the weight toward the fingerprint-favoured
record; and from the weight 3/5 < 1 onwards the second record ranks above
the first. -/
theorem drfp_reranking_scenario :
    ((packScen 0).precedents.map Precedent.reaction_id = [PyVal.str "R1"]) ∧
    (∀ w1 w2 : ℚ, 0 ≤ w1 → w1 ≤ w2 → w2 ≤ 1 →
      simTotalFor mexpOne encScen 4096 3 w1 (some fpQ) (targetFeatOf featQ) rowScen2 -
        simTotalFor mexpOne encScen 4096 3 w1 (some fpQ) (targetFeatOf featQ) rowScen1 ≤
      simTotalFor mexpOne encScen 4096 3 w2 (some fpQ) (targetFeatOf featQ) rowScen2 -
        simTotalFor mexpOne encScen 4096 3 w2 (some fpQ) (targetFeatOf featQ) rowScen1) ∧
    (∃ w0 : ℚ, w0 < 1 ∧ ∀ w : ℚ, w0 ≤ w → w ≤ 1 →
      (packScen w).precedents.map Precedent.reaction_id =
        [PyVal.str "R2", PyVal.str "R1"]) := by
  refine ⟨of_decide_eq_true (by with_unfolding_all rfl), ?_, ⟨3/5, by norm_num, ?_⟩⟩
  · intro w1 w2 hw1 h12 hw2
    rw [scen_simTotal_r1 w1 hw1 (h12.trans hw2), scen_simTotal_r2 w1 hw1 (h12.trans hw2),
        scen_simTotal_r1 w2 (hw1.trans h12) hw2, scen_simTotal_r2 w2 (hw1.trans h12) hw2]
    linarith
  · intro w hw0 hw1
    have hwpos : (0:ℚ) < w := by linarith
    have hpool : candidatePool [rowScen1, rowScen2] "F" featQ 5 (relaxScen w) =
        [rowScen1, rowScen2] :=
      (candidatePool_congr_relax [rowScen1, rowScen2] "F" featQ 5 (relaxScen w)
        (relaxScen 0) rfl rfl).trans (of_decide_eq_true (by with_unfolding_all rfl))
    have hqfp : qfpOf true encScen (relaxScen w) = some fpQ := by
      simp [qfpOf, relaxScen, encScen]
    have hscored : knnScoredOf mexpOne encScen true (relaxScen w) (targetFeatOf featQ)
        [rowScen1, rowScen2] =
        [((1 - (3/4) * w) * (3/4), rowScen1), (w * (3/4), rowScen2)] := by
      unfold knnScoredOf
      rw [hqfp]
      simp only [relaxScen, Option.getD_some, Option.getD_none]
      exact scen_scored w hwpos hw1
    have hfam : familyText "F" = "F" := of_decide_eq_true (by with_unfolding_all rfl)
    have hlt : (1 - (3/4) * w) * (3/4) < w * (3/4) := by nlinarith
    have hnle : ¬ scoreLe ((1 - (3/4) * w) * (3/4), rowScen1) (w * (3/4), rowScen2) := by
      unfold scoreLe
      push_neg
      exact ⟨le_of_lt hlt, fun he => absurd he (ne_of_lt hlt)⟩
    show (knnImpl hashZero mexpOne true encScen [rowScen1, rowScen2] "F" featQ 5
      (relaxScen w)).precedents.map Precedent.reaction_id = [PyVal.str "R2", PyVal.str "R1"]
    simp only [knnImpl, hfam, hpool, hscored]
    rw [insertionSort_pair scoreLe _ _, if_neg hnle]
    simp [mkPrecedent, rowScen1, rowScen2]

theorem toDigitsCore_append (b : ℕ) :
    ∀ (f n : ℕ) (acc : List Char),
      Nat.toDigitsCore b f n acc = Nat.toDigitsCore b f n [] ++ acc := by
  intro f
  induction f with
  | zero => intro n acc; simp [Nat.toDigitsCore]
  | succ f ih =>
    intro n acc
    simp only [Nat.toDigitsCore]
    by_cases h : n / b = 0
    · simp [h]
    · simp only [h, if_false]
      rw [ih (n / b) (Nat.digitChar (n % b) :: acc), ih (n / b) [Nat.digitChar (n % b)]]
      simp

theorem charVal_digitChar (m : ℕ) (h : m < 10) : charVal (Nat.digitChar m) = m := by
  interval_cases m <;> rfl

theorem decodeDigits_append (xs : List Char) (d : Char) :
    decodeDigits (xs ++ [d]) = 10 * decodeDigits xs + charVal d := by
  simp [decodeDigits, List.foldl_append]

theorem decode_toDigitsCore :
    ∀ (f n : ℕ), n < f → decodeDigits (Nat.toDigitsCore 10 f n []) = n := by
  intro f
  induction f with
  | zero => intro n h; exact absurd h (Nat.not_lt_zero n)
  | succ f ih =>
    intro n h
    simp only [Nat.toDigitsCore]
    by_cases hd : n / 10 = 0
    · simp only [hd, if_true]
      have h10 : n < 10 := by omega
      have hmod : n % 10 = n := Nat.mod_eq_of_lt h10
      have : decodeDigits [Nat.digitChar (n % 10)] = charVal (Nat.digitChar (n % 10)) := by
        simp [decodeDigits]
      rw [this, charVal_digitChar (n % 10) (Nat.mod_lt _ (by norm_num)), hmod]
    · simp only [hd, if_false]
      rw [toDigitsCore_append 10 f (n / 10) [Nat.digitChar (n % 10)], decodeDigits_append]
      have hdiv : n / 10 < f := by omega
      rw [ih (n / 10) hdiv, charVal_digitChar (n % 10) (Nat.mod_lt _ (by norm_num))]
      omega

theorem natRepr_injective : Function.Injective Nat.repr := by
  intro m n h
  have hm := decode_toDigitsCore (m + 1) m (Nat.lt_succ_self m)
  have hn := decode_toDigitsCore (n + 1) n (Nat.lt_succ_self n)
  have hdata : Nat.toDigitsCore 10 (m + 1) m [] = Nat.toDigitsCore 10 (n + 1) n [] := by
    have hd := congrArg String.data h
    simpa [Nat.repr, Nat.toDigits, List.asString] using hd
  rw [← hm, ← hn, hdata]

theorem wellIdStr_inj {L1 L2 : Char} {a b : ℕ}
    (h : String.singleton L1 ++ Nat.repr a = String.singleton L2 ++ Nat.repr b) :
    L1 = L2 ∧ a = b := by
  have hd := congrArg String.data h
  simp only [String.data_append] at hd
  have hs1 : (String.singleton L1).data = [L1] := rfl
  have hs2 : (String.singleton L2).data = [L2] := rfl
  rw [hs1, hs2] at hd
  simp only [List.singleton_append, List.cons.injEq] at hd
  exact ⟨hd.1, natRepr_injective (String.ext hd.2)⟩

theorem charOfNat_inj_26 : ∀ i ∈ List.range 26, ∀ j ∈ List.range 26,
    Char.ofNat (65 + i) = Char.ofNat (65 + j) → i = j := by decide

theorem gridIds_length (rows cols : ℕ) : (gridIds rows cols).length = rows * cols := by
  unfold gridIds
  rw [List.length_flatten, List.map_map]
  have : (List.length ∘ fun L => (List.range cols).map
      (fun c => String.singleton L ++ Nat.repr (c + 1))) = fun _ => cols := by
    funext L
    simp
  rw [this, List.map_map]
  have : ((fun _ => cols) ∘ fun i => Char.ofNat (65 + i)) = Function.const ℕ cols := rfl
  rw [this, List.map_const, List.sum_replicate, List.length_range, smul_eq_mul]

theorem gridIds_nodup (rows cols : ℕ) (hr : rows ≤ 26) : (gridIds rows cols).Nodup := by
  unfold gridIds
  rw [List.nodup_flatten]
  constructor
  · intro l hl
    rcases List.mem_map.mp hl with ⟨L, hL, rfl⟩
    refine List.Nodup.map ?_ (List.nodup_range cols)
    intro c1 c2 hc
    have := (wellIdStr_inj hc).2
    omega
  · have hletters : (((List.range rows).map (fun i => Char.ofNat (65 + i)))).Nodup := by
      refine List.Nodup.map_on ?_ (List.nodup_range rows)
      intro i hi j hj hij
      exact charOfNat_inj_26 i (List.mem_range.mpr (lt_of_lt_of_le (List.mem_range.mp hi) hr))
        j (List.mem_range.mpr (lt_of_lt_of_le (List.mem_range.mp hj) hr)) hij
    refine List.Pairwise.map _ ?_ hletters
    intro L1 L2 hne x hx1 hx2
    rcases List.mem_map.mp hx1 with ⟨c1, _, rfl⟩
    rcases List.mem_map.mp hx2 with ⟨c2, _, heq⟩
    exact hne (wellIdStr_inj heq.symm).1

theorem le_mul_ceilDivTerm (n r : ℕ) (hr : 1 ≤ r) : n ≤ r * ((n + r - 1) / r) := by
  have h := Nat.div_add_mod (n + r - 1) r
  have hm : (n + r - 1) % r < r := Nat.mod_lt _ (by omega)
  omega

theorem wellIds_length (n : ℕ) (hcap : findRowsDown n (Nat.sqrt n) ≤ 8) :
    (wellIds n).length = n := by
  rcases Nat.eq_zero_or_pos n with hn | hn
  · subst hn; simp [wellIds]
  · simp only [wellIds, List.length_take, gridIds_length]
    set r0 := findRowsDown n (Nat.sqrt n) with hr0
    set rows1 := if r0 ≤ 1 then min 8 n else r0 with hrows1
    have h1 : 1 ≤ rows1 := by
      rw [hrows1]; split_ifs with h <;> omega
    have h8 : rows1 ≤ 8 := by
      rw [hrows1]; split_ifs with h <;> omega
    have hrw : max 1 (min 8 rows1) = rows1 := by omega
    have hcols := le_mul_ceilDivTerm n rows1 h1
    have hcc : rows1 * ((n + rows1 - 1) / rows1) ≤
        rows1 * max 1 ((n + rows1 - 1) / rows1) :=
      Nat.mul_le_mul_left rows1 (le_max_right 1 _)
    rw [hrw]
    omega

theorem findRowsDown_eq (n : ℕ) : ∀ s,
    (if findRowsDown n s ≤ 1 then min 8 n else findRowsDown n s) =
    (match ((List.range (s + 1)).reverse).find?
        (fun r => decide (1 < r) && decide (n % r = 0)) with
     | some r => r
     | Option.none => min 8 n) := by
  intro s
  induction s using Nat.strong_induction_on with
  | _ s ih =>
    rcases s with _ | s
    · have h0 : (List.range 1).reverse = [0] := by decide
      rw [h0]
      simp [findRowsDown, List.find?]
    · rcases s with _ | r
      · have : (List.range 2).reverse = [1, 0] := by decide
        rw [this]
        simp [findRowsDown, List.find?]
      · have hrev : (List.range (r + 3)).reverse = (r + 2) :: (List.range (r + 2)).reverse := by
          rw [List.range_succ, List.reverse_append]
          simp
        rw [hrev]
        have h12 : decide (1 < r + 2) = true := by simp
        by_cases hmod : n % (r + 2) = 0
        · have hfr : findRowsDown n (r + 2) = r + 2 := by
            simp [findRowsDown, hmod]
          rw [hfr]
          simp only [List.find?, h12, hmod, decide_eq_true_eq]
          simp [hmod]
        · have hfr : findRowsDown n (r + 2) = findRowsDown n (r + 1) := by
            simp [findRowsDown, hmod]
          rw [hfr]
          have hpred : (fun r => decide (1 < r) && decide (n % r = 0)) (r + 2) = false := by
            simp [hmod]
          simp only [List.find?, hpred]
          exact ih (r + 1) (by omega)

theorem wellIds_eq_specGridIds (n : ℕ) (hcap : findRowsDown n (Nat.sqrt n) ≤ 8) :
    wellIds n = specGridIds n := by
  rcases Nat.eq_zero_or_pos n with hn | hn
  · subst hn; simp [wellIds, specGridIds]
  · simp only [wellIds, specGridIds]
    rw [← findRowsDown_eq n (Nat.sqrt n)]
    set r0 := findRowsDown n (Nat.sqrt n) with hr0
    set R := if r0 ≤ 1 then min 8 n else r0 with hR
    have h1 : 1 ≤ R := by
      rw [hR]; split_ifs with h <;> omega
    have h8 : R ≤ 8 := by
      rw [hR]; split_ifs with h <;> omega
    have e1 : min 8 R = R := by omega
    rw [e1]
    have e2 : max 1 R = R := by omega
    have e3 : max 1 ((n + R - 1) / R) = (n + R - 1) / R := by
      have h2 : 1 ≤ (n + R - 1) / R := (Nat.one_le_div_iff (by omega)).mpr (by omega)
      omega
    rw [e2, e3]

theorem wellIds_nodup (n : ℕ) : (wellIds n).Nodup := by
  simp only [wellIds]
  refine List.Nodup.sublist (List.take_sublist _ _) ?_
  apply gridIds_nodup
  omega

theorem cycleCores_length (cores : List String) (n : ℕ) :
    (cycleCores cores n).length = n := by
  simp [cycleCores]

theorem buildPlateRows_some (applyF : List String → List String × List String)
    (hasRules : Bool) (precs : List Precedent) (ids : List String) :
    ∀ (s : List String) (i : ℕ), i + s.length ≤ ids.length →
    ∃ rs, buildPlateRows applyF hasRules precs ids i s = some rs ∧
      rs.length = s.length ∧ rs.map PlateRow.well_id = (ids.drop i).take s.length := by
  intro s
  induction s with
  | nil => intro i h; exact ⟨[], rfl, rfl, by simp⟩
  | cons c rest ih =>
    intro i h
    have hi : i < ids.length := by
      simp only [List.length_cons] at h
      omega
    obtain ⟨rs, hrs, hlen, hmap⟩ := ih (i + 1) (by simp only [List.length_cons] at h; omega)
    have hget : ids.get? i = some (ids.get ⟨i, hi⟩) := List.get?_eq_get hi
    cases hrow : plateRowFor applyF hasRules precs ids i c with
    | none =>
      exfalso
      simp only [plateRowFor, hget] at hrow
      cases hrow
    | some row =>
      have hwid : row.well_id = ids.get ⟨i, hi⟩ := by
        simp only [plateRowFor, hget] at hrow
        obtain rfl := Option.some.inj hrow
        rfl
      refine ⟨row :: rs, ?_, by simp [hlen], ?_⟩
      · simp only [buildPlateRows, hrow, hrs]
      · simp only [List.map_cons, hmap, hwid]
        rw [List.drop_eq_get_cons hi, List.length_cons, List.take_succ_cons]

/-- C7 (amended): for every plate design in which at least one core is
observed and whose grid covers the plate (the divisor search of `_well_ids`
stays at 8 or below — true for every `plate_size ≤ 80` and for the
96-well standard size, but false e.g. for 81, 90, 100 and the 384-well
standard size, where the counterexample shows the design fails), the result
has exactly `plate_size` rows with pairwise-distinct well ids following the
claimed grid scheme. -/
theorem plate_design_grid
    (applyF : List String → List String × List String) (hasRules : Bool)
    (pack : PrecedentPack) (plateSize : ℕ)
    (hcore : coreListOf pack.precedents ≠ [])
    (hcap : findRowsDown plateSize (Nat.sqrt plateSize) ≤ 8) :
    ∃ d, designPlateFromPack applyF hasRules pack plateSize = some d ∧
      d.rows.length = plateSize ∧
      (d.rows.map PlateRow.well_id).Nodup ∧
      d.rows.map PlateRow.well_id = wellIds plateSize ∧
      wellIds plateSize = specGridIds plateSize := by
  have hlen := wellIds_length plateSize hcap
  have hcl : (coreListOf pack.precedents).isEmpty = false := by
    cases h : (coreListOf pack.precedents).isEmpty
    · rfl
    · exact absurd (List.isEmpty_iff.mp h) hcore
  obtain ⟨rs, hrs, hlen2, hmap⟩ := buildPlateRows_some applyF hasRules pack.precedents
    (wellIds plateSize) (cycleCores (coreListOf pack.precedents) plateSize) 0
    (by rw [cycleCores_length, hlen]; omega)
  have hmap2 : rs.map PlateRow.well_id = wellIds plateSize := by
    rw [hmap, List.drop_zero, cycleCores_length]
    exact List.take_of_length_le (le_of_eq hlen)
  refine ⟨{ rows := rs, meta_error := Option.none }, ?_, ?_, ?_, hmap2,
    wellIds_eq_specGridIds plateSize hcap⟩
  · simp only [designPlateFromPack, hcl, Bool.false_eq_true, if_false, hrs]
    rfl
  · rw [hlen2, cycleCores_length]
  · rw [hmap2]
    exact wellIds_nodup plateSize

/-- Witness for C7 on a one-core pack and a 4-well plate. -/
theorem plate_design_grid_witness :
    coreListOf packCoreA.precedents ≠ [] ∧
    findRowsDown 4 (Nat.sqrt 4) ≤ 8 ∧
    (∃ d, designPlateFromPack applyFNil false packCoreA 4 = some d ∧
      d.rows.length = 4 ∧
      (d.rows.map PlateRow.well_id).Nodup ∧
      d.rows.map PlateRow.well_id = wellIds 4 ∧
      wellIds 4 = specGridIds 4) :=
  ⟨by decide, of_decide_eq_true (by with_unfolding_all rfl),
   plate_design_grid applyFNil false packCoreA 4 (by decide)
     (of_decide_eq_true (by with_unfolding_all rfl))⟩

set_option maxRecDepth 8192 in
/-- Counterexample for C7 as stated: `_well_ids` sizes the columns from the
divisor-search row count and only then caps the rows at 8, so the grid can
undercover the plate.  At `plate_size = 81` the divisor search returns 9,
the columns are sized at 9 and the capped grid holds 8 × 9 = 72 ids; at the
standard `plate_size = 384` the divisor search returns 16, the columns are
sized at 24 and the capped grid holds 8 × 24 = 192 ids.  In both cases the
source raises `IndexError` (the embedding returns the failure value) instead
of producing `plate_size` rows. -/
theorem plate_design_81_counterexample :
    (designPlateFromPack applyFNil false packCoreA 81 = Option.none ∧
     (wellIds 81).length = 72) ∧
    (designPlateFromPack applyFNil false packCoreA 384 = Option.none ∧
     (wellIds 384).length = 192) := by
  refine ⟨⟨?_, ?_⟩, ?_, ?_⟩ <;> exact of_decide_eq_true (by with_unfolding_all rfl)

end CondAgent
